import Mathlib

/-!
Verification of the business-adaptability classification core of the
AI-agent repository: the industry classifier, business-size analyzer and
role recognizer (`src/business_adaptability/*.py`), shallowly embedded in
Lean 4.  Python dicts (insertion-ordered) are modelled as association
lists, Python numbers as `ℚ`, and the regex count
`len(re.findall(r'\b' + re.escape(keyword) + r'\b', text))` as an
explicit scan with word-boundary checks.  Fallible code paths return
`Option`.
-/

namespace AIAgent

/-! ## Word-boundary keyword counting (shared scoring primitive)

Both `IndustryClassifier.classify_industry` and
`RoleRecognizer._calculate_role_score` count keyword occurrences with
`len(re.findall(r'\b' + re.escape(keyword) + r'\b', text))`.
`re.escape` makes the keyword a literal; `\b` asserts a word boundary:
it matches between two adjacent positions exactly when one side is a
word character (`[A-Za-z0-9_]` for the ASCII inputs at hand) and the
other is not (the ends of the string count as non-word).  `re.findall`
scans left to right and resumes after the end of each match, so matches
never overlap. -/

/-- Python regex word characters (ASCII): letters, digits, underscore. -/
def isWordChar (c : Char) : Bool := c.isAlphanum || c == '_'

/-- `\b` holds between two (optional) adjacent characters iff exactly one
side is a word character; a missing character (string edge) is non-word. -/
def isBoundary (a b : Option Char) : Bool :=
  (a.elim false isWordChar) != (b.elim false isWordChar)

/-- The literal keyword `kw`, wrapped in `\b … \b`, matches text `t` at
position `i`. -/
def matchAt (kw t : List Char) (i : Nat) : Bool :=
  decide ((t.drop i).take kw.length = kw)
  && isBoundary (if i = 0 then none else t.get? (i - 1)) (t.get? i)
  && isBoundary (t.get? (i + kw.length - 1)) (t.get? (i + kw.length))

/-- One step of the `re.findall` scan: try position `i`; on a match,
resume after the match, otherwise at `i + 1`.  `fuel` bounds the number
of steps (each step advances `i` by at least one). -/
def countFrom (kw t : List Char) : Nat → Nat → Nat
  | 0, _ => 0
  | fuel + 1, i =>
    if i ≤ t.length then
      if matchAt kw t i then
        countFrom kw t fuel (i + max kw.length 1) + 1
      else
        countFrom kw t fuel (i + 1)
    else 0

/-- `len(re.findall(r'\b' + re.escape(kw) + r'\b', t))`: the number of
non-overlapping word-boundary-delimited occurrences of `kw` in `t`. -/
def countOcc (kw t : List Char) : Nat :=
  countFrom kw t (t.length + 1) 0

/-! ## Rounding and confidence shares -/

/-- Python `round(x, 2)`: round to two decimal places (source values are
exact enough that float representation and tie-breaking do not matter for
the claims below). -/
def round2 (x : ℚ) : ℚ := (round (x * 100) : ℤ) / 100

/-- The `(score / total_score) * 100 if total_score > 0 else 0` pattern
shared by all three classifiers. -/
def shareConfidence (s total : ℚ) : ℚ :=
  if 0 < total then s / total * 100 else 0

/-! ## Industry taxonomy (`IndustryClassifier._create_default_industry_data`)

Python dicts preserve insertion order, so each `id -> node` mapping is an
association list in source order, with the key carried as an `id` field. -/

structure SubIndustry where
  id : String
  name : String
  keywords : List String
deriving DecidableEq

structure Industry where
  id : String
  name : String
  description : String
  keywords : List String
  sub_industries : List SubIndustry
deriving DecidableEq

def retailIndustry : Industry :=
  { id := "retail"
    name := "Retail"
    description := "Businesses that sell products directly to consumers."
    keywords := ["retail", "store", "shop", "e-commerce", "online store", "merchant",
                 "seller", "sales", "consumer goods", "shopping", "marketplace"]
    sub_industries :=
      [ { id := "apparel", name := "Apparel and Fashion"
          keywords := ["clothing", "fashion", "apparel", "shoes", "accessories", "jewelry", "wearables"] },
        { id := "electronics", name := "Electronics and Appliances"
          keywords := ["electronics", "appliances", "gadgets", "devices", "computers", "phones"] },
        { id := "grocery", name := "Grocery and Food Retail"
          keywords := ["grocery", "supermarket", "food", "beverage", "produce", "market"] },
        { id := "home_goods", name := "Home Goods and Furniture"
          keywords := ["furniture", "home goods", "decor", "housewares", "home improvement"] } ] }

def healthcareIndustry : Industry :=
  { id := "healthcare"
    name := "Healthcare"
    description := "Organizations involved in providing medical services, products, or facilities."
    keywords := ["healthcare", "medical", "health", "hospital", "clinic", "patient",
                 "doctor", "physician", "care", "wellness", "treatment"]
    sub_industries :=
      [ { id := "providers", name := "Healthcare Providers"
          keywords := ["hospital", "clinic", "doctor", "physician", "nurse", "medical practice"] },
        { id := "pharma", name := "Pharmaceuticals"
          keywords := ["pharmaceutical", "pharma", "drug", "medication", "medicine", "biotech"] },
        { id := "devices", name := "Medical Devices"
          keywords := ["medical device", "equipment", "diagnostic", "implant", "prosthetic"] },
        { id := "insurance", name := "Health Insurance"
          keywords := ["health insurance", "payer", "coverage", "benefits", "claims"] } ] }

def financeIndustry : Industry :=
  { id := "finance"
    name := "Finance"
    description := "Businesses that manage money, investments, and financial services."
    keywords := ["finance", "banking", "investment", "financial", "bank", "insurance",
                 "wealth", "money", "capital", "loan", "credit", "asset"]
    sub_industries :=
      [ { id := "banking", name := "Banking"
          keywords := ["bank", "banking", "savings", "checking", "deposit", "loan", "credit"] },
        { id := "investment", name := "Investment and Wealth Management"
          keywords := ["investment", "wealth", "asset", "portfolio", "fund", "stock", "bond"] },
        { id := "insurance", name := "Insurance"
          keywords := ["insurance", "insurer", "policy", "risk", "underwriting", "claim"] },
        { id := "fintech", name := "Financial Technology"
          keywords := ["fintech", "payment", "digital banking", "blockchain", "cryptocurrency"] } ] }

def manufacturingIndustry : Industry :=
  { id := "manufacturing"
    name := "Manufacturing"
    description := "Businesses that produce goods through processing, fabrication, or assembly."
    keywords := ["manufacturing", "factory", "production", "assembly", "fabrication",
                 "industrial", "machinery", "processing", "materials", "goods"]
    sub_industries :=
      [ { id := "automotive", name := "Automotive Manufacturing"
          keywords := ["automotive", "vehicle", "car", "auto parts", "automobile"] },
        { id := "electronics", name := "Electronics Manufacturing"
          keywords := ["electronics", "semiconductor", "circuit", "component", "device"] },
        { id := "consumer_goods", name := "Consumer Goods Manufacturing"
          keywords := ["consumer goods", "product", "packaged goods", "household"] },
        { id := "industrial", name := "Industrial Manufacturing"
          keywords := ["industrial", "machinery", "equipment", "heavy", "tool"] } ] }

def technologyIndustry : Industry :=
  { id := "technology"
    name := "Technology"
    description := "Businesses that develop or provide technology products and services."
    keywords := ["technology", "software", "IT", "tech", "digital", "computer",
                 "internet", "web", "app", "cloud", "data", "platform"]
    sub_industries :=
      [ { id := "software", name := "Software Development"
          keywords := ["software", "application", "app", "development", "programming", "SaaS"] },
        { id := "hardware", name := "Hardware and Devices"
          keywords := ["hardware", "device", "computer", "server", "equipment"] },
        { id := "services", name := "IT Services"
          keywords := ["IT service", "consulting", "support", "managed service", "outsourcing"] },
        { id := "internet", name := "Internet and Digital Media"
          keywords := ["internet", "web", "digital media", "online", "platform", "social media"] } ] }

def educationIndustry : Industry :=
  { id := "education"
    name := "Education"
    description := "Organizations that provide educational services and resources."
    keywords := ["education", "school", "university", "college", "academic", "learning",
                 "teaching", "student", "course", "training", "educational"]
    sub_industries :=
      [ { id := "k12", name := "K-12 Education"
          keywords := ["school", "K-12", "elementary", "secondary", "high school"] },
        { id := "higher_ed", name := "Higher Education"
          keywords := ["university", "college", "higher education", "campus", "degree"] },
        { id := "edtech", name := "Educational Technology"
          keywords := ["edtech", "e-learning", "online learning", "educational software"] },
        { id := "training", name := "Professional Training"
          keywords := ["training", "professional development", "certification", "skill"] } ] }

def hospitalityIndustry : Industry :=
  { id := "hospitality"
    name := "Hospitality and Tourism"
    description := "Businesses that provide accommodation, food, and travel services."
    keywords := ["hospitality", "hotel", "restaurant", "tourism", "travel", "accommodation",
                 "lodging", "food service", "catering", "leisure", "guest"]
    sub_industries :=
      [ { id := "accommodation", name := "Accommodation"
          keywords := ["hotel", "motel", "resort", "lodging", "inn", "accommodation"] },
        { id := "food_service", name := "Food Service"
          keywords := ["restaurant", "cafe", "catering", "food service", "dining"] },
        { id := "travel", name := "Travel and Tourism"
          keywords := ["travel", "tourism", "tour", "vacation", "destination"] },
        { id := "entertainment", name := "Entertainment and Recreation"
          keywords := ["entertainment", "recreation", "attraction", "event", "leisure"] } ] }

def professionalServicesIndustry : Industry :=
  { id := "professional_services"
    name := "Professional Services"
    description := "Businesses that provide specialized professional services."
    keywords := ["professional services", "consulting", "legal", "accounting", "advisory",
                 "service firm", "professional", "expert", "consultant", "advisor"]
    sub_industries :=
      [ { id := "legal", name := "Legal Services"
          keywords := ["legal", "law firm", "attorney", "lawyer", "counsel"] },
        { id := "accounting", name := "Accounting and Tax"
          keywords := ["accounting", "accountant", "tax", "audit", "bookkeeping"] },
        { id := "consulting", name := "Management Consulting"
          keywords := ["consulting", "consultant", "advisory", "strategy", "management"] },
        { id := "marketing", name := "Marketing and Advertising"
          keywords := ["marketing", "advertising", "agency", "PR", "media", "branding"] } ] }

/-- The `industries` mapping of the default industry data, in insertion
order. -/
def defaultIndustries : List Industry :=
  [retailIndustry, healthcareIndustry, financeIndustry, manufacturingIndustry,
   technologyIndustry, educationIndustry, hospitalityIndustry,
   professionalServicesIndustry]

/-! ## `IndustryClassifier.classify_industry` -/

/-- Python `str.lower()` on the ASCII inputs at hand: lowercase each
character.  (Stated on `List Char`, the representation used throughout.) -/
def toLowerChars (s : String) : List Char := s.toList.map Char.toLower

/-- Lines 279-284: lowercase the description and, when the additional
keyword list is non-empty (Python truthiness of the optional list),
append the lowercased keywords joined by single spaces
(`" ".join(...)`). -/
def buildCorpus (business_description : String) (additional_keywords : List String) : List Char :=
  if additional_keywords.isEmpty then
    toLowerChars business_description
  else
    toLowerChars business_description ++ [' '] ++
      List.intercalate [' '] (additional_keywords.map toLowerChars)

/-- Lines 296-302 (and the analogous sub-industry loop): sum the
occurrence counts of each keyword of a list over the corpus.  The
keyword is *not* lowercased here (unlike in the role recognizer), so
keywords holding capitals such as "IT" never match the lowercased
corpus. -/
def keywordScoreNat (corpus : List Char) (kws : List String) : Nat :=
  kws.foldl (fun score kw =>
    let count := countOcc kw.toList corpus
    if 0 < count then score + count else score) 0

/-- Lines 308-313: a sub-industry's own score is its keyword count. -/
def subIndustryScore (corpus : List Char) (s : SubIndustry) : Nat :=
  keywordScoreNat corpus s.keywords

/-- Lines 296-315: an industry's score is its own keyword count plus
half of every sub-industry keyword occurrence (`count * 0.5` per
keyword, i.e. half the summed sub-industry scores). -/
def industryScore (corpus : List Char) (ind : Industry) : ℚ :=
  (keywordScoreNat corpus ind.keywords : ℚ) +
    (ind.sub_industries.map fun s => (subIndustryScore corpus s : ℚ)).sum / 2

/-- Python `max(d, key=d.get)` over an insertion-ordered dict: the first
key attaining the maximal value (later entries replace the current best
only when strictly greater). -/
def maxBySnd {α : Type} [LinearOrder α] (l : List (String × α)) :
    Option (String × α) :=
  l.foldl (fun best p =>
    match best with
    | none => some p
    | some b => if b.2 < p.2 then some p else some b) none

structure ScoredCategory where
  id : String
  name : String
  confidence : ℚ
deriving DecidableEq

structure SubMatch where
  id : String
  name : String
  score : Nat
deriving DecidableEq

structure IndustryMatch where
  id : String
  name : String
  score : ℚ
  sub_industries : List SubMatch
deriving DecidableEq

structure IndustryClassification where
  primary_industry : ScoredCategory
  sub_industry : ScoredCategory
  all_matches : List IndustryMatch
deriving DecidableEq

/-- Lines 374-393 of `_get_top_sub_industry`: empty record when no
sub-industry scores positively, else the first maximal sub-score with
its rounded confidence share (the `none` arm is unreachable: scores are
non-empty whenever the all-zero test fails). -/
def topSubFromScores (subs : List SubIndustry)
    (sub_scores : List (String × Nat)) : ScoredCategory :=
  if sub_scores.all fun p => p.2 = 0 then
    { id := "", name := "", confidence := 0 }
  else
    match maxBySnd sub_scores with
    | some (sid, s) =>
      let total : ℚ := ((sub_scores.map fun p => p.2).sum : Nat)
      { id := sid
        name := ((subs.find? fun su => su.id = sid).map SubIndustry.name).getD ""
        confidence := round2 (shareConfidence (s : ℚ) total) }
    | none => { id := "", name := "", confidence := 0 }

/-- `IndustryClassifier._get_top_sub_industry` (lines 360-393): among the
tracked sub-industry scores of the given industry (every sub-industry of
`industry_id`, zeros included), pick the top one. -/
def getTopSubIndustry (data : List Industry) (corpus : List Char)
    (industry_id : String) : ScoredCategory :=
  let subs := ((data.find? fun i => i.id = industry_id).map
    Industry.sub_industries).getD []
  topSubFromScores subs (subs.map fun s => (s.id, subIndustryScore corpus s))

/-- The `all_matches` mapping of the classification result (lines
340-355): every industry with strictly positive score, in taxonomy
order, carrying its positively-scoring sub-industries. -/
def classifyAllMatches (data : List Industry) (corpus : List Char) :
    List IndustryMatch :=
  (data.filter fun ind => 0 < industryScore corpus ind).map fun ind =>
    { id := ind.id
      name := ind.name
      score := industryScore corpus ind
      sub_industries :=
        (ind.sub_industries.filter fun s => 0 < subIndustryScore corpus s).map
          fun s => { id := s.id, name := s.name, score := subIndustryScore corpus s } }

/-- Lines 317-327 of `classify_industry`: when no score is positive the
primary industry falls back to `"technology"` with confidence 0;
otherwise `max(industry_scores, key=industry_scores.get)` wins with
confidence `score / total * 100`.  (`maxBySnd` is `some` on every
non-empty list, and the scores list is non-empty whenever the all-zero
test fails, so the `none` arm is unreachable.) -/
def classifyTop (industry_scores : List (String × ℚ)) : String × ℚ :=
  if industry_scores.all fun p => p.2 = 0 then
    ("technology", (0 : ℚ))
  else
    match maxBySnd industry_scores with
    | some (tid, s) =>
      let total := (industry_scores.map fun p => p.2).sum
      (tid, shareConfidence s total)
    | none => ("technology", (0 : ℚ))

/-- `IndustryClassifier.classify_industry` (lines 266-358) over taxonomy
`data` (the in-memory `industry_data["industries"]` mapping).  The
winner's confidence is rounded to two decimals.  Name fields are looked
up in `data` (the source indexes the dict; an absent id would raise
there, modelled by the empty-string default, which no claim touches). -/
def classify_industry (data : List Industry) (business_description : String)
    (additional_keywords : List String) : IndustryClassification :=
  let corpus := buildCorpus business_description additional_keywords
  let industry_scores : List (String × ℚ) :=
    data.map fun ind => (ind.id, industryScore corpus ind)
  let top := classifyTop industry_scores
  { primary_industry :=
      { id := top.1
        name := ((data.find? fun i => i.id = top.1).map Industry.name).getD ""
        confidence := round2 top.2 }
    sub_industry := getTopSubIndustry data corpus top.1
    all_matches := classifyAllMatches data corpus }

/-- `IndustryClassifier.get_industry_information` (lines 395-409):
return the record for a known id, else the `"technology"` record. -/
def get_industry_information (data : List Industry) (industry_id : String) :
    Industry :=
  match data.find? fun i => i.id = industry_id with
  | some i => i
  | none => ((data.find? fun i => i.id = "technology").getD technologyIndustry)

/-! ## Business size taxonomy (`BusinessSizeAnalyzer._create_default_size_data`) -/

/-- A numeric range with optional bounds (`None` meaning unbounded). -/
structure MRange where
  min : Option ℚ
  max : Option ℚ
deriving DecidableEq

/-- An ordered mapping from size label to range, for one metric. -/
abbrev ThresholdSet := List (String × MRange)

/-- An ordered mapping from metric name to its threshold set. -/
abbrev MetricThresholds := List (String × ThresholdSet)

def general_employees_thresholds : ThresholdSet :=
  [("micro", ⟨some 1, some 10⟩), ("small", ⟨some 11, some 50⟩),
   ("medium", ⟨some 51, some 250⟩), ("large", ⟨some 251, some 1000⟩),
   ("enterprise", ⟨some 1001, none⟩)]

def general_revenue_thresholds : ThresholdSet :=
  [("micro", ⟨some 0, some 1000000⟩), ("small", ⟨some 1000001, some 10000000⟩),
   ("medium", ⟨some 10000001, some 50000000⟩),
   ("large", ⟨some 50000001, some 1000000000⟩),
   ("enterprise", ⟨some 1000000001, none⟩)]

def industry_specific_thresholds : List (String × MetricThresholds) :=
  [ ("retail",
     [("employees",
       [("small", ⟨some 1, some 50⟩), ("medium", ⟨some 51, some 200⟩),
        ("enterprise", ⟨some 201, none⟩)]),
      ("revenue",
       [("small", ⟨some 0, some 5000000⟩), ("medium", ⟨some 5000001, some 50000000⟩),
        ("enterprise", ⟨some 50000001, none⟩)]),
      ("locations",
       [("small", ⟨some 1, some 3⟩), ("medium", ⟨some 4, some 20⟩),
        ("enterprise", ⟨some 21, none⟩)])]),
    ("healthcare",
     [("employees",
       [("small", ⟨some 1, some 100⟩), ("medium", ⟨some 101, some 500⟩),
        ("enterprise", ⟨some 501, none⟩)]),
      ("revenue",
       [("small", ⟨some 0, some 10000000⟩), ("medium", ⟨some 10000001, some 100000000⟩),
        ("enterprise", ⟨some 100000001, none⟩)]),
      ("beds",
       [("small", ⟨some 1, some 100⟩), ("medium", ⟨some 101, some 500⟩),
        ("enterprise", ⟨some 501, none⟩)])]),
    ("finance",
     [("employees",
       [("small", ⟨some 1, some 100⟩), ("medium", ⟨some 101, some 1000⟩),
        ("enterprise", ⟨some 1001, none⟩)]),
      ("revenue",
       [("small", ⟨some 0, some 20000000⟩), ("medium", ⟨some 20000001, some 500000000⟩),
        ("enterprise", ⟨some 500000001, none⟩)]),
      ("assets_under_management",
       [("small", ⟨some 0, some 100000000⟩), ("medium", ⟨some 100000001, some 1000000000⟩),
        ("enterprise", ⟨some 1000000001, none⟩)])]),
    ("manufacturing",
     [("employees",
       [("small", ⟨some 1, some 100⟩), ("medium", ⟨some 101, some 500⟩),
        ("enterprise", ⟨some 501, none⟩)]),
      ("revenue",
       [("small", ⟨some 0, some 20000000⟩), ("medium", ⟨some 20000001, some 100000000⟩),
        ("enterprise", ⟨some 100000001, none⟩)]),
      ("production_volume",
       [("small", ⟨some 0, some 1000000⟩), ("medium", ⟨some 1000001, some 10000000⟩),
        ("enterprise", ⟨some 10000001, none⟩)])]),
    ("technology",
     [("employees",
       [("small", ⟨some 1, some 50⟩), ("medium", ⟨some 51, some 250⟩),
        ("enterprise", ⟨some 251, none⟩)]),
      ("revenue",
       [("small", ⟨some 0, some 10000000⟩), ("medium", ⟨some 10000001, some 100000000⟩),
        ("enterprise", ⟨some 100000001, none⟩)]),
      ("users",
       [("small", ⟨some 0, some 10000⟩), ("medium", ⟨some 10001, some 1000000⟩),
        ("enterprise", ⟨some 1000001, none⟩)])]) ]

structure SizeCharacteristics where
  description : String
  challenges : List String
  opportunities : List String
deriving DecidableEq

def smallCharacteristics : SizeCharacteristics :=
  { description := "Small businesses typically have limited resources, simpler organizational structures, and more direct decision-making processes."
    challenges :=
      ["Limited budget and resources",
       "Wearing multiple hats (employees perform multiple roles)",
       "Difficulty competing with larger businesses",
       "Limited access to capital",
       "Less formal processes and documentation"]
    opportunities :=
      ["Agility and quick decision-making",
       "Personal customer relationships",
       "Niche market focus",
       "Flexibility to adapt quickly",
       "Less bureaucracy"] }

def mediumCharacteristics : SizeCharacteristics :=
  { description := "Medium-sized businesses have more resources than small businesses but still maintain some flexibility. They typically have more formal structures and specialized roles."
    challenges :=
      ["Growing pains during scaling",
       "Balancing formality with flexibility",
       "Developing middle management",
       "Standardizing processes across the organization",
       "Competing with both small and large businesses"]
    opportunities :=
      ["Established market presence",
       "More resources for growth and innovation",
       "Ability to serve larger clients",
       "More specialized expertise",
       "Better economies of scale than small businesses"] }

def enterpriseCharacteristics : SizeCharacteristics :=
  { description := "Enterprise businesses are large organizations with complex structures, formal processes, and significant resources. They typically operate at scale across multiple locations or markets."
    challenges :=
      ["Organizational complexity",
       "Slower decision-making processes",
       "Maintaining innovation and agility",
       "Managing large workforces",
       "Coordinating across departments and regions"]
    opportunities :=
      ["Significant resources for investment",
       "Strong market position and brand recognition",
       "Economies of scale",
       "Ability to influence industry standards",
       "Global reach and capabilities"] }

def size_characteristics : List (String × SizeCharacteristics) :=
  [("small", smallCharacteristics), ("medium", mediumCharacteristics),
   ("enterprise", enterpriseCharacteristics)]

/-! ## `BusinessSizeAnalyzer.analyze_business_size` -/

/-- `BusinessSizeAnalyzer._categorize_metric` (lines 319-345): walk the
threshold set in order and return the first label whose range accepts
the value, testing `min <= value <= max` / `value >= min` / `value <= max`
according to which bounds are present; a range with *neither* bound is
skipped (no branch of the source`s if/elif chain fires); if no range
accepts, return `"medium"`. -/
def categorize_metric (value : ℚ) : ThresholdSet → String
  | [] => "medium"
  | (size, r) :: rest =>
    match r.min, r.max with
    | some lo, some hi =>
      if lo ≤ value ∧ value ≤ hi then size else categorize_metric value rest
    | some lo, none =>
      if lo ≤ value then size else categorize_metric value rest
    | none, some hi =>
      if value ≤ hi then size else categorize_metric value rest
    | none, none => categorize_metric value rest

/-- One entry of the `confidence_scores` dict: assigned bucket and
metric weight. -/
structure MetricRecord where
  size : String
  weight : ℚ
deriving DecidableEq

/-- Python dict assignment `d[k] = v` on an insertion-ordered dict:
replace in place when the key exists, else append. -/
def setKey (m : List (String × MetricRecord)) (k : String) (v : MetricRecord) :
    List (String × MetricRecord) :=
  if m.any fun p => p.1 = k then
    m.map fun p => if p.1 = k then (k, v) else p
  else m ++ [(k, v)]

/-- Lines 243-264: evaluate employees count (weight 0.4), annual
revenue (weight 0.4) and the additional metrics in mapping order
(weight 0.2 each, only those with a threshold set), producing the
`size_categories` list and the `confidence_scores` dict.  The
`if employee_size:` style guards (Python truthiness of the label) are
the `s ≠ ""` tests. -/
def evalMetrics (ths : MetricThresholds) (employees_count annual_revenue : Option ℚ)
    (additional_metrics : List (String × ℚ)) :
    List String × List (String × MetricRecord) :=
  let st0 : List String × List (String × MetricRecord) := ([], [])
  let st1 :=
    match employees_count with
    | some v =>
      match ths.find? fun p => p.1 = "employees" with
      | some p =>
        let s := categorize_metric v p.2
        if s ≠ "" then (st0.1 ++ [s], setKey st0.2 "employees" ⟨s, 2/5⟩) else st0
      | none => st0
    | none => st0
  let st2 :=
    match annual_revenue with
    | some v =>
      match ths.find? fun p => p.1 = "revenue" with
      | some p =>
        let s := categorize_metric v p.2
        if s ≠ "" then (st1.1 ++ [s], setKey st1.2 "revenue" ⟨s, 2/5⟩) else st1
      | none => st1
    | none => st1
  additional_metrics.foldl
    (fun st m =>
      match ths.find? fun p => p.1 = m.1 with
      | some p =>
        let s := categorize_metric m.2 p.2
        if s ≠ "" then (st.1 ++ [s], setKey st.2 m.1 ⟨s, 1/5⟩) else st
      | none => st)
    st2

/-- `size_counts[size] = size_counts.get(size, 0) + 1` on an
insertion-ordered dict. -/
def bumpCount (m : List (String × Nat)) (k : String) : List (String × Nat) :=
  if m.any fun p => p.1 = k then
    m.map fun p => if p.1 = k then (p.1, p.2 + 1) else p
  else m ++ [(k, 1)]

/-- The `size_counts` dict (lines 272-275). -/
def sizeCounts (cats : List String) : List (String × Nat) :=
  cats.foldl bumpCount []

/-- `size_characteristics.get(final_size, size_characteristics["medium"])`. -/
def lookupCharacteristics (s : String) : SizeCharacteristics :=
  ((size_characteristics.find? fun p => p.1 = s).map fun p => p.2).getD
    mediumCharacteristics

structure SizeAnalysis where
  size_category : String
  confidence : ℚ
  description : String
  challenges : List String
  opportunities : List String
  /-- metric name, reported value, category, weight.  The reported
  value is the same for every metric: the source comprehension reads the
  loop variable `value` left over from the additional-metrics loop
  (so it is the *last additional metric's* value). -/
  metrics_analysis : List (String × ℚ × String × ℚ)
deriving DecidableEq

/-- The threshold sets used for `industry`: the industry-specific table
when registered (after lowercasing the id), else the two general sets. -/
def thresholdsFor (industry : String) : MetricThresholds :=
  let ind := (toLowerChars industry).asString
  match industry_specific_thresholds.find? fun p => p.1 = ind with
  | some p => p.2
  | none =>
    [("employees", general_employees_thresholds),
     ("revenue", general_revenue_thresholds)]

/-- Lines 266-293: the final size category and unrounded confidence.
With no evaluated metric, `("medium", 0)`; otherwise the first maximal
entry of `size_counts` (`max(size_counts, key=size_counts.get)`; the
`.getD ("", 0)` default is unreachable since the counts dict of a
non-empty category list is non-empty), with the weight share of the
agreeing metrics as confidence. -/
def finalSizeAndConfidence (size_categories : List String)
    (confidence_scores : List (String × MetricRecord)) : String × ℚ :=
  if size_categories.isEmpty then
    ("medium", (0 : ℚ))
  else
    let final_size := ((maxBySnd (sizeCounts size_categories)).getD ("", 0)).1
    let weighted_confidence := confidence_scores.foldl
      (fun acc p => if p.2.size = final_size then acc + p.2.weight else acc) 0
    let total_weight := confidence_scores.foldl (fun acc p => acc + p.2.weight) 0
    (final_size, shareConfidence weighted_confidence total_weight)

/-- `BusinessSizeAnalyzer.analyze_business_size` (lines 211-317).
Wherever the source would raise it returns `none`: the `metrics_analysis`
comprehension reads the loop variable `value`, which is bound only when
the additional-metrics loop ran, so a call with evaluated metrics but an
empty `additional_metrics` raises `UnboundLocalError` in the source.
The final category is the first maximal entry of `size_counts`
(`max(size_counts, key=size_counts.get)`); the confidence is the weight
share of the metrics agreeing with it, rounded to two decimals. -/
def analyze_business_size (industry : String)
    (employees_count annual_revenue : Option ℚ)
    (additional_metrics : List (String × ℚ)) : Option SizeAnalysis :=
  let thresholds := thresholdsFor industry
  let st := evalMetrics thresholds employees_count annual_revenue additional_metrics
  let size_categories := st.1
  let confidence_scores := st.2
  let fc := finalSizeAndConfidence size_categories confidence_scores
  let chars := lookupCharacteristics fc.1
  match confidence_scores, additional_metrics.getLast? with
  | [], _ =>
    some { size_category := fc.1, confidence := round2 fc.2
           description := chars.description, challenges := chars.challenges
           opportunities := chars.opportunities, metrics_analysis := [] }
  | _ :: _, none => none  -- UnboundLocalError on `value`
  | _ :: _, some lastMetric =>
    some { size_category := fc.1, confidence := round2 fc.2
           description := chars.description, challenges := chars.challenges
           opportunities := chars.opportunities
           metrics_analysis := confidence_scores.map fun p =>
             (p.1, lastMetric.2, p.2.size, p.2.weight) }

/-- `BusinessSizeAnalyzer.get_size_information` (lines 347-364):
lowercase the category, return its record, else `"medium"`. -/
def get_size_information (size_category : String) : SizeCharacteristics :=
  let s := (toLowerChars size_category).asString
  match size_characteristics.find? fun p => p.1 = s with
  | some p => p.2
  | none => mediumCharacteristics

/-! ## Role taxonomy (`RoleRecognizer._create_default_role_data`)

Role nodes carry `interests` and (for organizational roles)
`communication_preferences` in the source; those fields are static data
consumed by no modelled operation or claim and are omitted from the
record. -/

structure RoleInfo where
  id : String
  name : String
  description : String
  keywords : List String
deriving DecidableEq

def organizational_roles : List RoleInfo :=
  [ { id := "executive", name := "Executive"
      description := "Senior leadership responsible for strategic decisions and overall direction."
      keywords := ["CEO", "CFO", "CTO", "CIO", "COO", "CMO", "CHRO", "executive", "chief",
                   "president", "vice president", "VP", "director", "head", "founder",
                   "owner", "partner", "board member", "chairman", "chairwoman"] },
    { id := "manager", name := "Manager"
      description := "Mid-level leadership responsible for team performance and operational execution."
      keywords := ["manager", "supervisor", "team lead", "project manager", "department head",
                   "coordinator", "administrator", "lead", "senior", "principal"] },
    { id := "specialist", name := "Specialist"
      description := "Individual contributor with specialized expertise in a specific domain."
      keywords := ["specialist", "expert", "analyst", "engineer", "developer", "designer",
                   "consultant", "technician", "associate", "professional", "advisor",
                   "representative", "agent", "coordinator"] } ]

def functional_roles : List RoleInfo :=
  [ { id := "technology", name := "Technology"
      description := "Roles focused on technology development, implementation, and management."
      keywords := ["developer", "engineer", "programmer", "architect", "administrator",
                   "technician", "analyst", "IT", "technical", "software", "hardware",
                   "network", "database", "security", "support", "DevOps", "QA"] },
    { id := "marketing", name := "Marketing"
      description := "Roles focused on promoting products/services and building brand awareness."
      keywords := ["marketing", "brand", "advertising", "communications", "PR", "public relations",
                   "content", "social media", "digital", "campaign", "market research", "SEO",
                   "growth", "acquisition", "engagement", "retention", "conversion"] },
    { id := "sales", name := "Sales"
      description := "Roles focused on selling products/services and managing customer relationships."
      keywords := ["sales", "account", "business development", "customer success", "relationship",
                   "revenue", "deal", "pipeline", "forecast", "quota", "prospect", "lead",
                   "opportunity", "client", "customer"] },
    { id := "finance", name := "Finance"
      description := "Roles focused on financial management, analysis, and reporting."
      keywords := ["finance", "accounting", "financial", "budget", "forecast", "analysis",
                   "controller", "treasurer", "auditor", "tax", "investment", "capital",
                   "revenue", "expense", "profit", "loss", "cash flow", "balance sheet"] },
    { id := "operations", name := "Operations"
      description := "Roles focused on day-to-day business operations and process management."
      keywords := ["operations", "process", "production", "logistics", "supply chain",
                   "procurement", "inventory", "quality", "facilities", "manufacturing",
                   "distribution", "warehouse", "fulfillment", "service delivery"] },
    { id := "human_resources", name := "Human Resources"
      description := "Roles focused on people management, talent development, and organizational culture."
      keywords := ["HR", "human resources", "people", "talent", "recruitment", "hiring",
                   "training", "development", "compensation", "benefits", "culture",
                   "employee", "workforce", "staff", "personnel", "organizational"] } ]

def industry_specific_roles : List (String × List RoleInfo) :=
  [ ("healthcare",
     [ { id := "clinical", name := "Clinical"
         description := "Healthcare professionals directly involved in patient care."
         keywords := ["doctor", "physician", "nurse", "practitioner", "therapist", "clinician",
                      "medical", "clinical", "patient care", "treatment", "diagnosis"] },
       { id := "administrative", name := "Healthcare Administration"
         description := "Professionals managing healthcare operations and compliance."
         keywords := ["administrator", "coordinator", "director", "manager", "compliance",
                      "billing", "coding", "records", "regulatory", "operations"] } ]),
    ("finance",
     [ { id := "investment", name := "Investment Professional"
         description := "Professionals managing investments and financial assets."
         keywords := ["investment", "portfolio", "asset", "wealth", "advisor", "banker",
                      "trader", "analyst", "fund", "capital", "securities"] },
       { id := "banking", name := "Banking Professional"
         description := "Professionals working in banking and financial services."
         keywords := ["banker", "teller", "loan", "credit", "branch", "banking",
                      "account", "deposit", "mortgage", "financial services"] } ]),
    ("retail",
     [ { id := "merchandising", name := "Merchandising Professional"
         description := "Professionals managing product selection, pricing, and presentation."
         keywords := ["merchandiser", "buyer", "product", "assortment", "category",
                      "pricing", "promotion", "inventory", "retail", "purchasing"] },
       { id := "store_operations", name := "Store Operations Professional"
         description := "Professionals managing retail store operations and customer experience."
         keywords := ["store", "retail", "shop", "manager", "associate", "sales floor",
                      "customer service", "operations", "cashier", "floor"] } ]) ]

structure CommStrategy where
  content_focus : List String
  presentation_style : List String
  language_patterns : List String
deriving DecidableEq

def executiveStrategy : CommStrategy :=
  { content_focus :=
      ["Strategic impact and business outcomes",
       "ROI and financial implications",
       "Competitive advantage and market positioning",
       "Risk assessment and mitigation",
       "High-level implementation considerations"]
    presentation_style :=
      ["Begin with key conclusions and recommendations",
       "Use executive summaries with clear, actionable insights",
       "Include visual representations of data and trends",
       "Provide strategic context for recommendations",
       "Offer clear next steps and decision points"]
    language_patterns :=
      ["Strategic, forward-looking terminology",
       "Business outcome-focused language",
       "Confident, decisive phrasing",
       "Industry-specific executive terminology",
       "Concise, impactful statements"] }

def managerStrategy : CommStrategy :=
  { content_focus :=
      ["Operational implementation details",
       "Team impact and resource requirements",
       "Performance metrics and measurement",
       "Process improvements and efficiency gains",
       "Timeline and milestone planning"]
    presentation_style :=
      ["Balance strategic context with tactical details",
       "Include implementation roadmaps and timelines",
       "Provide team-level impact analysis",
       "Offer resource allocation recommendations",
       "Include change management considerations"]
    language_patterns :=
      ["Action-oriented, practical terminology",
       "Team and resource-focused language",
       "Process and implementation phrasing",
       "Balanced technical and business terminology",
       "Clear direction and guidance statements"] }

def specialistStrategy : CommStrategy :=
  { content_focus :=
      ["Technical details and specifications",
       "Implementation methodologies and best practices",
       "Tool-specific features and capabilities",
       "Technical challenges and solutions",
       "Detailed performance metrics and analysis"]
    presentation_style :=
      ["Provide comprehensive technical details",
       "Include technical diagrams and specifications",
       "Reference industry standards and best practices",
       "Offer detailed implementation guidance",
       "Include technical comparisons and benchmarks"]
    language_patterns :=
      ["Technically precise terminology",
       "Domain-specific jargon and acronyms",
       "Detailed, specific descriptions",
       "Evidence-based, analytical phrasing",
       "Implementation-focused language"] }

def communication_strategies : List (String × CommStrategy) :=
  [("executive", executiveStrategy), ("manager", managerStrategy),
   ("specialist", specialistStrategy)]

/-! ## `RoleRecognizer.recognize_role` -/

/-- `RoleRecognizer._calculate_role_score` (lines 471-493): each keyword
is lowercased and counted with the word-boundary regex; a keyword with
`count` occurrences adds `count * (0.5 + len(keyword)/20)` to the
score. -/
def calculate_role_score (text : List Char) (keywords : List String) : ℚ :=
  keywords.foldl
    (fun score kw =>
      let count := countOcc (toLowerChars kw) text
      if 0 < count then
        score + (count : ℚ) * (1 / 2 + (kw.length : ℚ) / 20)
      else score)
    0

/-- The role-score dicts of `recognize_role` (lines 388-405): roles of a
taxonomy in order, keeping only strictly positive scores. -/
def roleScores (text : List Char) (table : List RoleInfo) : List (String × ℚ) :=
  table.foldl
    (fun acc r =>
      let score := calculate_role_score text r.keywords
      if 0 < score then acc ++ [(r.id, score)] else acc)
    []

structure RoleResult where
  id : String
  name : String
  description : String
  confidence : ℚ
deriving DecidableEq

/-- `RoleRecognizer._get_highest_scoring_role` (lines 495-540): with no
positive scores, fall back to the default role when one is given and
present in the table, else to the empty record; otherwise pick the first
maximal score with its rounded confidence share.  (Name/description of
the winner are read from the table; the winner's id is always a table
key, so the `.getD` defaults are unreachable.) -/
def get_highest_scoring_role (role_scores : List (String × ℚ))
    (role_data : List RoleInfo) (default_role : Option String) : RoleResult :=
  match role_scores with
  | [] =>
    match default_role with
    | some d =>
      if d ≠ "" then
        match role_data.find? fun r => r.id = d with
        | some r =>
          { id := d, name := r.name, description := r.description, confidence := 0 }
        | none => { id := "", name := "", description := "", confidence := 0 }
      else { id := "", name := "", description := "", confidence := 0 }
    | none => { id := "", name := "", description := "", confidence := 0 }
  | _ :: _ =>
    match maxBySnd role_scores with
    | some (tid, s) =>
      let total := (role_scores.map fun p => p.2).sum
      let r := role_data.find? fun ri => ri.id = tid
      { id := tid
        name := ((r.map fun ri => ri.name).getD "")
        description := ((r.map fun ri => ri.description).getD "")
        confidence := round2 (shareConfidence s total) }
    | none =>
      { id := "", name := "", description := "", confidence := 0 }

/-- Lines 421-427: the optional industry-specific role: absent unless
an industry-specific taxonomy applies and something in it scored. -/
def industryRoleResult (combined_text : List Char)
    (ind_table : Option (List RoleInfo)) : Option RoleResult :=
  match ind_table with
  | some t =>
    let ind_scores := roleScores combined_text t
    if ind_scores.isEmpty then none
    else some (get_highest_scoring_role ind_scores t none)
  | none => none

/-- Lines 459-467: the optional industry-specific `all_matches` block. -/
def industryRoleMatches (combined_text : List Char)
    (ind_table : Option (List RoleInfo)) : Option (List (String × ℚ)) :=
  match ind_table with
  | some t =>
    let ind_scores := roleScores combined_text t
    if ind_scores.isEmpty then none else some ind_scores
  | none => none

structure RoleRecognition where
  organizational_role : RoleResult
  functional_role : RoleResult
  industry_specific_role : Option RoleResult
  communication_strategy : CommStrategy
  /-- `all_matches` per taxonomy, as id -> score in insertion order (the
  source also repeats each role's display name, derivable from the
  taxonomy and carried by no claim). -/
  organizational_matches : List (String × ℚ)
  functional_matches : List (String × ℚ)
  industry_specific_matches : Option (List (String × ℚ))
deriving DecidableEq

/-- `RoleRecognizer.recognize_role` (lines 360-469).  The corpus is
`f"{job_title_lower} {additional_info_lower}"`; the industry-specific
taxonomy applies only when `industry` is truthy and registered. -/
def recognize_role (job_title : String) (additional_info : Option String)
    (industry : Option String) : RoleRecognition :=
  let job_title_lower := toLowerChars job_title
  let additional_info_lower :=
    match additional_info with
    | some s => toLowerChars s
    | none => []
  let industry_lower : String :=
    ((industry.map toLowerChars).getD []).asString
  let combined_text := job_title_lower ++ [' '] ++ additional_info_lower
  let ind_table : Option (List RoleInfo) :=
    match industry with
    | some s =>
      if s ≠ "" then
        (industry_specific_roles.find? fun p => p.1 = industry_lower).map
          fun p => p.2
      else none
    | none => none
  let org_scores := roleScores combined_text organizational_roles
  let func_scores := roleScores combined_text functional_roles
  let primary_org := get_highest_scoring_role org_scores organizational_roles
    (some "manager")
  { organizational_role := primary_org
    functional_role := get_highest_scoring_role func_scores functional_roles
      (some "technology")
    industry_specific_role := industryRoleResult combined_text ind_table
    communication_strategy :=
      ((communication_strategies.find? fun p => p.1 = primary_org.id).map
        fun p => p.2).getD managerStrategy
    organizational_matches := org_scores
    functional_matches := func_scores
    industry_specific_matches := industryRoleMatches combined_text ind_table }

/-- `RoleRecognizer.get_role_information` (lines 542-563): typed lookup;
any unrecognized role type, id or industry falls through to the
documented empty-dict result, modelled as `none`. -/
def get_role_information (role_type role_id : String)
    (industry : Option String) : Option RoleInfo :=
  if role_type = "organizational" ∧ organizational_roles.any fun r => r.id = role_id then
    organizational_roles.find? fun r => r.id = role_id
  else if role_type = "functional" ∧ functional_roles.any fun r => r.id = role_id then
    functional_roles.find? fun r => r.id = role_id
  else
    match industry with
    | some ind =>
      if role_type = "industry_specific" ∧ ind ≠ "" then
        match industry_specific_roles.find? fun p => p.1 = ind with
        | some p => p.2.find? fun r => r.id = role_id
        | none => none
      else none
    | none => none

/-- `RoleRecognizer.get_communication_strategy` (lines 565-579): the
strategy of a known organizational role id, else the `"manager"`
strategy. -/
def get_communication_strategy (organizational_role : String) : CommStrategy :=
  match communication_strategies.find? fun p => p.1 = organizational_role with
  | some p => p.2
  | none => managerStrategy

/-! ## Taxonomy update operations

`IndustryClassifier.update_industry_data` is specialized to the industry
schema (it dispatches on the `"sub_industries"` and `"keywords"` keys),
so it is embedded over the typed taxonomy with partial update documents;
`BusinessSizeAnalyzer.update_size_data` and
`RoleRecognizer.update_role_data` are the same generic dict merger
(lines 366-396 and 581-611 are textually identical), embedded over a
JSON value type.  The trailing `json.dump` persistence of each updater
is file I/O outside the modelled state. -/

/-- A partial sub-industry document: the fields that may appear in the
`sub_info` dict (`dict.update` replaces exactly the supplied ones). -/
structure SubIndustryUpdate where
  id : String
  name : Option String := none
  keywords : Option (List String) := none

/-- `self.industry_data[...]["sub_industries"][sub_id].update(sub_info)`
(line 429): replace the supplied fields of an existing sub-industry. -/
def applySubUpdate (s : SubIndustry) (u : SubIndustryUpdate) : SubIndustry :=
  { s with name := u.name.getD s.name, keywords := u.keywords.getD s.keywords }

/-- Line 432: a brand-new sub-industry is the supplied document itself
(absent fields default; the claims only exercise merges into existing
entries). -/
def subUpdateToRecord (u : SubIndustryUpdate) : SubIndustry :=
  { id := u.id, name := u.name.getD "", keywords := u.keywords.getD [] }

/-- A partial industry document, as iterated by
`for key, value in industry_info.items()` (line 423). -/
structure IndustryUpdate where
  id : String
  name : Option String := none
  description : Option String := none
  keywords : Option (List String) := none
  sub_industries : Option (List SubIndustryUpdate) := none

/-- Lines 434-437: extend the existing keyword list by exactly the
supplied keywords *not already present*
(`extend([kw for kw in value if kw not in existing])`); the membership
filter is against the original list, so duplicates inside the supplied
list itself are all appended. -/
def mergeKeywords (old new : List String) : List String :=
  old ++ new.filter fun kw => !(old.contains kw)

/-- Lines 422-440: merge a partial document into an existing industry:
sub-industries are merged entry-wise (update existing, append new),
keywords via `mergeKeywords`, any other supplied field replaces the old
value. -/
def applyIndustryUpdate (ind : Industry) (u : IndustryUpdate) : Industry :=
  { ind with
    name := u.name.getD ind.name
    description := u.description.getD ind.description
    keywords :=
      match u.keywords with
      | some kws => mergeKeywords ind.keywords kws
      | none => ind.keywords
    sub_industries :=
      match u.sub_industries with
      | some subs =>
        subs.foldl
          (fun cur su =>
            if cur.any fun s => s.id = su.id then
              cur.map fun s => if s.id = su.id then applySubUpdate s su else s
            else cur ++ [subUpdateToRecord su])
          ind.sub_industries
      | none => ind.sub_industries }

/-- `IndustryClassifier.update_industry_data` (lines 411-447): merge
each supplied industry document into the `industries` mapping (update
existing ids in place, append new ones). -/
def update_industry_data (data : List Industry) (new_data : List IndustryUpdate) :
    List Industry :=
  new_data.foldl
    (fun cur u =>
      if cur.any fun i => i.id = u.id then
        cur.map fun i => if i.id = u.id then applyIndustryUpdate i u else i
      else
        cur ++ [{ id := u.id, name := u.name.getD "", description := u.description.getD ""
                  keywords := u.keywords.getD []
                  sub_industries := (u.sub_industries.getD []).map subUpdateToRecord }])
    data

/-- A JSON value, for the generic size/role data merger.  (The taxonomy
files hold no booleans or nulls.) -/
inductive JValue where
  | str : String → JValue
  | num : ℚ → JValue
  | list : List JValue → JValue
  | obj : List (String × JValue) → JValue

/-- Python `d[k] = v` on an insertion-ordered dict of JSON values. -/
def setKeyJ (m : List (String × JValue)) (k : String) (v : JValue) :
    List (String × JValue) :=
  if m.any fun p => p.1 = k then
    m.map fun p => if p.1 = k then (k, v) else p
  else m ++ [(k, v)]

/-- Python `d.update(other)`: assign every key of `other` into `d`. -/
def dictUpdateJ (m other : List (String × JValue)) : List (String × JValue) :=
  other.foldl (fun acc p => setKeyJ acc p.1 p.2) m

/-- The generic data merger shared verbatim by
`BusinessSizeAnalyzer.update_size_data` (lines 366-396) and
`RoleRecognizer.update_role_data` (lines 581-611).  For each top-level
`(category, category_data)` of the new document: unknown categories are
inserted; for known categories a dict merges key-by-key (two nested
dicts merge via `dict.update`, anything else replaces), a list is
concatenated onto the existing list (`extend`, no deduplication), and a
scalar is silently ignored (the source has no branch for it).  `none`
models the shapes on which the source raises: a dict against a non-dict
existing value (string-keyed indexing of a non-dict) and a list against
a non-list existing value (`extend` on a non-list). -/
def mergeDataDoc (data new_data : List (String × JValue)) :
    Option (List (String × JValue)) :=
  new_data.foldlM
    (fun cur p =>
      match cur.find? fun q => q.1 = p.1 with
      | some q =>
        match p.2 with
        | .obj kvs =>
          match q.2 with
          | .obj exKvs =>
            let merged := kvs.foldl
              (fun ex kv =>
                match ex.find? fun r => r.1 = kv.1 with
                | some r =>
                  match kv.2, r.2 with
                  | .obj innerNew, .obj innerEx =>
                    setKeyJ ex kv.1 (.obj (dictUpdateJ innerEx innerNew))
                  | _, _ => setKeyJ ex kv.1 kv.2
                | none => setKeyJ ex kv.1 kv.2)
              exKvs
            some (setKeyJ cur p.1 (.obj merged))
          | _ => none
        | .list items =>
          match q.2 with
          | .list exItems => some (setKeyJ cur p.1 (.list (exItems ++ items)))
          | _ => none
        | _ => some cur
      | none => some (setKeyJ cur p.1 p.2))
    data

/-- `BusinessSizeAnalyzer.update_size_data` (lines 366-396). -/
def update_size_data (data new_data : List (String × JValue)) :
    Option (List (String × JValue)) :=
  mergeDataDoc data new_data

/-- `RoleRecognizer.update_role_data` (lines 581-611), textually the
same merge as `update_size_data`. -/
def update_role_data (data new_data : List (String × JValue)) :
    Option (List (String × JValue)) :=
  mergeDataDoc data new_data

/-! ## Auxiliary definitions used by theorem statements -/

/-- The score `classify_industry` assigns to the industry with the given
id (0 for an unknown id), over the default taxonomy. -/
def industryScoreById (corpus : List Char) (tid : String) : ℚ :=
  ((defaultIndustries.find? fun i => i.id = tid).map (industryScore corpus)).getD 0

/-- The total score over all industries of the default taxonomy. -/
def totalIndustryScore (corpus : List Char) : ℚ :=
  (defaultIndustries.map fun ind => industryScore corpus ind).sum

/-- Containment in a possibly open-ended range, as the spec words it:
the value is at least the lower bound when one is present and at most
the upper bound when one is present. -/
def specRangeContains (v : ℚ) (r : MRange) : Bool :=
  (match r.min with
   | some lo => decide (lo ≤ v)
   | none => true) &&
  (match r.max with
   | some hi => decide (v ≤ hi)
   | none => true)

/-- The distinct elements of a list in order of first occurrence (the
key order of a Python counting dict). -/
def firstOccList (cats : List String) : List String :=
  cats.foldl (fun acc c => if c ∈ acc then acc else acc ++ [c]) []

/-! ## Helper lemmas -/

section Helpers

variable {α : Type} [LinearOrder α]

/-- The running-maximum step of `max(d, key=d.get)`. -/
def maxStep (b p : String × α) : String × α := if b.2 < p.2 then p else b

theorem round2_nonneg {x : ℚ} (hx : 0 ≤ x) : 0 ≤ round2 x := by
  unfold round2
  have h : (0 : ℤ) ≤ round (x * 100) := by
    rw [round_eq]
    exact Int.le_floor.mpr (by push_cast; linarith)
  positivity

theorem round2_le_100 {x : ℚ} (hx : x ≤ 100) : round2 x ≤ 100 := by
  unfold round2
  have h : round (x * 100) ≤ (10000 : ℤ) := by
    rw [round_eq]
    have h1 : (⌊x * 100 + 1 / 2⌋ : ℤ) ≤ ⌊(10000 : ℚ) + 1 / 2⌋ :=
      Int.floor_le_floor (by linarith)
    have h2 : (⌊(10000 : ℚ) + 1 / 2⌋ : ℤ) = 10000 := by
      rw [Int.floor_eq_iff]
      constructor <;> norm_num
    omega
  rw [div_le_iff₀ (by norm_num)]
  exact_mod_cast h

theorem shareConfidence_nonneg {s total : ℚ} (hs : 0 ≤ s) :
    0 ≤ shareConfidence s total := by
  unfold shareConfidence
  split
  · positivity
  · exact le_refl 0

theorem shareConfidence_le_100 {s total : ℚ} (hst : s ≤ total) :
    shareConfidence s total ≤ 100 := by
  unfold shareConfidence
  split
  · rename_i h
    have : s / total ≤ 1 := (div_le_one h).mpr hst
    linarith
  · norm_num

/-- Bounds for the rounded confidence share, used by every classifier. -/
theorem round2_share_bounds {s total : ℚ} (hs : 0 ≤ s) (hst : s ≤ total) :
    0 ≤ round2 (shareConfidence s total) ∧
      round2 (shareConfidence s total) ≤ 100 :=
  ⟨round2_nonneg (shareConfidence_nonneg hs),
   round2_le_100 (shareConfidence_le_100 hst)⟩

theorem foldl_maxStepO_some (l : List (String × α)) (b : String × α) :
    l.foldl (fun best p =>
      match best with
      | none => some p
      | some c => if c.2 < p.2 then some p else some c) (some b) =
    some (l.foldl maxStep b) := by
  induction l generalizing b with
  | nil => rfl
  | cons q t ih =>
    simp only [List.foldl_cons]
    have h1 : (if b.2 < q.2 then some q else some b) = some (maxStep b q) := by
      by_cases h : b.2 < q.2 <;> simp [maxStep, h]
    rw [h1, ih]

theorem maxBySnd_cons (p : String × α) (l : List (String × α)) :
    maxBySnd (p :: l) = some (l.foldl maxStep p) := by
  unfold maxBySnd
  simp only [List.foldl_cons]
  exact foldl_maxStepO_some l p

theorem foldl_maxStep_mem (b : String × α) (l : List (String × α)) :
    l.foldl maxStep b ∈ b :: l := by
  induction l generalizing b with
  | nil => simp
  | cons q t ih =>
    simp only [List.foldl_cons]
    by_cases h : b.2 < q.2
    · have hm : maxStep b q = q := by unfold maxStep; simp [h]
      rw [hm]
      rcases List.mem_cons.mp (ih q) with h' | h' <;> simp [h']
    · have hm : maxStep b q = b := by unfold maxStep; simp [h]
      rw [hm]
      rcases List.mem_cons.mp (ih b) with h' | h' <;> simp [h']

theorem foldl_maxStep_ub (b : String × α) (l : List (String × α)) :
    ∀ x ∈ b :: l, x.2 ≤ (l.foldl maxStep b).2 := by
  induction l generalizing b with
  | nil =>
    intro x hx
    rcases List.mem_cons.mp hx with h | h
    · exact h ▸ le_refl _
    · simp at h
  | cons q t ih =>
    intro x hx
    simp only [List.foldl_cons]
    by_cases h : b.2 < q.2
    · have hm : maxStep b q = q := by unfold maxStep; simp [h]
      rw [hm]
      rcases List.mem_cons.mp hx with h' | h'
      · calc x.2 = b.2 := by rw [h']
          _ ≤ q.2 := le_of_lt h
          _ ≤ _ := ih q q (List.mem_cons_self _ _)
      · exact ih q x h'
    · have hm : maxStep b q = b := by unfold maxStep; simp [h]
      rw [hm]
      rcases List.mem_cons.mp hx with h' | h'
      · exact h' ▸ ih b b (List.mem_cons_self _ _)
      · rcases List.mem_cons.mp h' with h'' | h''
        · calc x.2 = q.2 := by rw [h'']
            _ ≤ b.2 := le_of_not_lt h
            _ ≤ _ := ih b b (List.mem_cons_self _ _)
        · exact ih b x (List.mem_cons_of_mem _ h'')

/-- The running maximum is the *first* element attaining the maximal
value: everything strictly before it in the list is strictly smaller. -/
theorem foldl_maxStep_first (b : String × α) (l : List (String × α)) :
    ∃ ys zs, b :: l = ys ++ (l.foldl maxStep b) :: zs ∧
      ∀ y ∈ ys, y.2 < (l.foldl maxStep b).2 := by
  induction l generalizing b with
  | nil => exact ⟨[], [], by simp⟩
  | cons q t ih =>
    simp only [List.foldl_cons]
    by_cases hbq : b.2 < q.2
    · have hm : maxStep b q = q := by unfold maxStep; simp [hbq]
      rw [hm]
      obtain ⟨ys, zs, hsplit, hlt⟩ := ih q
      refine ⟨b :: ys, zs, ?_, ?_⟩
      · rw [List.cons_append, ← hsplit]
      · intro y hy
        rcases List.mem_cons.mp hy with h' | h'
        · have hub : q.2 ≤ (t.foldl maxStep q).2 :=
            foldl_maxStep_ub q t q (List.mem_cons_self _ _)
          calc y.2 = b.2 := by rw [h']
            _ < q.2 := hbq
            _ ≤ _ := hub
        · exact hlt y h'
    · have hm : maxStep b q = b := by unfold maxStep; simp [hbq]
      rw [hm]
      obtain ⟨ys, zs, hsplit, hlt⟩ := ih b
      rcases ys with _ | ⟨y0, ys'⟩
      · simp only [List.nil_append] at hsplit
        injection hsplit with h1 h2
        refine ⟨[], q :: zs, ?_, by simp⟩
        rw [List.nil_append, ← h1, ← h2]
      · rw [List.cons_append] at hsplit
        injection hsplit with h1 h2
        refine ⟨b :: q :: ys', zs, ?_, ?_⟩
        · rw [List.cons_append, List.cons_append, ← h2]
        · intro y hy
          have hb : b.2 < (t.foldl maxStep b).2 := by
            have := hlt y0 (List.mem_cons_self _ _)
            rwa [← h1] at this
          rcases List.mem_cons.mp hy with h' | h'
          · exact h' ▸ hb
          · rcases List.mem_cons.mp h' with h'' | h''
            · calc y.2 = q.2 := by rw [h'']
                _ ≤ b.2 := le_of_not_lt hbq
                _ < _ := hb
            · exact hlt y (h1 ▸ List.mem_cons_of_mem _ h'')

theorem maxBySnd_some_of_ne_nil {l : List (String × α)} (h : l ≠ []) :
    ∃ r, maxBySnd l = some r := by
  rcases l with _ | ⟨p, t⟩
  · exact absurd rfl h
  · exact ⟨t.foldl maxStep p, maxBySnd_cons p t⟩

theorem maxBySnd_mem {l : List (String × α)} {r : String × α}
    (h : maxBySnd l = some r) : r ∈ l := by
  rcases l with _ | ⟨p, t⟩
  · simp [maxBySnd] at h
  · rw [maxBySnd_cons] at h
    exact (Option.some_injective _ h) ▸ foldl_maxStep_mem p t

theorem maxBySnd_ub {l : List (String × α)} {r : String × α}
    (h : maxBySnd l = some r) : ∀ x ∈ l, x.2 ≤ r.2 := by
  rcases l with _ | ⟨p, t⟩
  · simp [maxBySnd] at h
  · rw [maxBySnd_cons] at h
    intro x hx
    exact (Option.some_injective _ h) ▸ foldl_maxStep_ub p t x hx

theorem maxBySnd_first {l : List (String × α)} {r : String × α}
    (h : maxBySnd l = some r) :
    ∃ ys zs, l = ys ++ r :: zs ∧ ∀ y ∈ ys, y.2 < r.2 := by
  rcases l with _ | ⟨p, t⟩
  · simp [maxBySnd] at h
  · rw [maxBySnd_cons] at h
    exact (Option.some_injective _ h) ▸ foldl_maxStep_first p t

end Helpers

/-- A conditional-accumulation `foldl` is the sum of the contributions,
provided skipped elements contribute zero. -/
theorem foldl_if_eq_sum {β : Type} (P : β → Prop) [DecidablePred P]
    (f : β → ℚ) (hf : ∀ b, ¬ P b → f b = 0) :
    ∀ (l : List β) (c : ℚ),
      l.foldl (fun acc b => if P b then acc + f b else acc) c =
        c + (l.map f).sum := by
  intro l
  induction l with
  | nil => intro c; simp
  | cons b t ih =>
    intro c
    by_cases hb : P b
    · simp [hb, ih, add_assoc]
    · simp [hb, ih, hf b hb]

/-- Same, over `Nat`. -/
theorem foldl_if_eq_sum_nat {β : Type} (P : β → Prop) [DecidablePred P]
    (f : β → Nat) (hf : ∀ b, ¬ P b → f b = 0) :
    ∀ (l : List β) (c : Nat),
      l.foldl (fun acc b => if P b then acc + f b else acc) c =
        c + (l.map f).sum := by
  intro l
  induction l with
  | nil => intro c; simp
  | cons b t ih =>
    intro c
    by_cases hb : P b
    · simp [hb, ih, Nat.add_assoc]
    · simp [hb, ih, hf b hb]

/-- Keyword-list scores are the plain sum of occurrence counts. -/
theorem keywordScoreNat_eq_sum (corpus : List Char) (kws : List String) :
    keywordScoreNat corpus kws =
      (kws.map fun kw => countOcc kw.toList corpus).sum := by
  unfold keywordScoreNat
  have h := foldl_if_eq_sum_nat (fun kw : String => 0 < countOcc kw.toList corpus)
    (fun kw => countOcc kw.toList corpus) (fun b hb => by simpa using hb) kws 0
  simpa using h

theorem industryScore_nonneg (corpus : List Char) (ind : Industry) :
    0 ≤ industryScore corpus ind := by
  unfold industryScore
  have h1 : (0 : ℚ) ≤ (keywordScoreNat corpus ind.keywords : ℚ) := by positivity
  have h2 : (0 : ℚ) ≤
      (ind.sub_industries.map fun s => (subIndustryScore corpus s : ℚ)).sum := by
    apply List.sum_nonneg
    intro x hx
    rcases List.mem_map.mp hx with ⟨s, _, rfl⟩
    positivity
  linarith

/-- `_calculate_role_score` as a closed formula: every keyword
contributes `count * (0.5 + len/20)`. -/
theorem calculate_role_score_eq_sum (text : List Char) (keywords : List String) :
    calculate_role_score text keywords =
      (keywords.map fun kw =>
        (countOcc (toLowerChars kw) text : ℚ) *
          (1 / 2 + (kw.length : ℚ) / 20)).sum := by
  unfold calculate_role_score
  have h := foldl_if_eq_sum (fun kw : String => 0 < countOcc (toLowerChars kw) text)
    (fun kw => (countOcc (toLowerChars kw) text : ℚ) * (1 / 2 + (kw.length : ℚ) / 20))
    (fun b hb => by
      have h0 : countOcc (toLowerChars b) text = 0 := by simpa using hb
      simp only []
      rw [h0]
      simp)
    keywords 0
  simpa using h

theorem calculate_role_score_nonneg (text : List Char) (keywords : List String) :
    0 ≤ calculate_role_score text keywords := by
  rw [calculate_role_score_eq_sum]
  apply List.sum_nonneg
  intro x hx
  rcases List.mem_map.mp hx with ⟨kw, _, rfl⟩
  positivity

/-- Every score recorded by the role scorer is strictly positive. -/
theorem roleScores_pos (text : List Char) (table : List RoleInfo) :
    ∀ p ∈ roleScores text table, 0 < p.2 := by
  unfold roleScores
  suffices h : ∀ (tab : List RoleInfo) (acc : List (String × ℚ)),
      (∀ p ∈ acc, 0 < p.2) →
      ∀ p ∈ tab.foldl (fun acc r =>
        let score := calculate_role_score text r.keywords
        if 0 < score then acc ++ [(r.id, score)] else acc) acc, 0 < p.2 by
    exact h table [] (by simp)
  intro tab
  induction tab with
  | nil => intro acc hacc; simpa using hacc
  | cons r t ih =>
    intro acc hacc p hp
    simp only [List.foldl_cons] at hp
    by_cases hs : 0 < calculate_role_score text r.keywords
    · refine ih _ ?_ p (by simpa [hs] using hp)
      intro q hq
      rcases List.mem_append.mp hq with h' | h'
      · exact hacc q h'
      · simp at h'
        rw [h']
        exact hs
    · exact ih _ hacc p (by simpa [hs] using hp)

/-- An entry of a list of nonnegative scores is at most their sum. -/
theorem snd_le_sum {l : List (String × ℚ)} (hpos : ∀ p ∈ l, 0 ≤ p.2)
    {r : String × ℚ} (hr : r ∈ l) : r.2 ≤ (l.map fun p => p.2).sum := by
  apply List.single_le_sum
  · intro x hx
    rcases List.mem_map.mp hx with ⟨p, hp, rfl⟩
    exact hpos p hp
  · exact List.mem_map_of_mem _ hr

theorem snd_le_sum_nat {l : List (String × Nat)} {r : String × Nat}
    (hr : r ∈ l) : r.2 ≤ (l.map fun p => p.2).sum := by
  apply List.single_le_sum (by simp)
  exact List.mem_map_of_mem _ hr

/-- `find?` on a key-distinct list locates exactly the member with the
given key. -/
theorem find?_eq_some_of_mem {β : Type} (key : β → String) {l : List β}
    (hnd : (l.map key).Nodup) {x : β} (hx : x ∈ l) :
    l.find? (fun y => key y = key x) = some x := by
  induction l with
  | nil => cases hx
  | cons a t ih =>
    by_cases ha : key a = key x
    · have hxa : x = a := by
        rcases List.mem_cons.mp hx with h | h
        · exact h
        · exfalso
          have hmem : key x ∈ t.map key := List.mem_map_of_mem _ h
          rw [← ha] at hmem
          exact (List.nodup_cons.mp (by simpa using hnd)).1 hmem
      subst hxa
      simp [List.find?_cons, ha]
    · have hx' : x ∈ t := by
        rcases List.mem_cons.mp hx with h | h
        · exact absurd (h ▸ rfl) ha
        · exact h
      have := ih (by simpa using (List.nodup_cons.mp (by simpa using hnd)).2) hx'
      simpa [List.find?_cons, ha] using this

theorem round2_zero : round2 0 = 0 := by simp [round2]

/-- Confidence bounds for `_get_highest_scoring_role`, for any score
list with nonnegative entries. -/
theorem ghsr_conf_bounds (scores : List (String × ℚ)) (tab : List RoleInfo)
    (dflt : Option String) (hpos : ∀ p ∈ scores, 0 ≤ p.2) :
    0 ≤ (get_highest_scoring_role scores tab dflt).confidence ∧
      (get_highest_scoring_role scores tab dflt).confidence ≤ 100 := by
  rcases scores with _ | ⟨p, t⟩
  · unfold get_highest_scoring_role
    rcases dflt with _ | d
    · norm_num
    · by_cases hd : d = ""
      · simp [hd]
      · simp only [hd]
        simp
        rcases hf : tab.find? fun r => r.id = d with _ | r <;> simp [hf, hd]
  · have hmax := maxBySnd_cons p t
    have hmem : t.foldl maxStep p ∈ p :: t := foldl_maxStep_mem p t
    have h0 : 0 ≤ (t.foldl maxStep p).2 := hpos _ hmem
    have hle : (t.foldl maxStep p).2 ≤ ((p :: t).map fun q => q.2).sum :=
      snd_le_sum hpos hmem
    unfold get_highest_scoring_role
    rw [hmax]
    exact round2_share_bounds h0 hle

/-- Confidence bounds for the primary-industry selection, for any score
list with nonnegative entries. -/
theorem classifyTop_conf_bounds (scores : List (String × ℚ))
    (hpos : ∀ p ∈ scores, 0 ≤ p.2) :
    0 ≤ round2 (classifyTop scores).2 ∧ round2 (classifyTop scores).2 ≤ 100 := by
  unfold classifyTop
  by_cases hall : (scores.all fun p => decide (p.2 = 0)) = true
  · rw [if_pos hall]
    simp [round2_zero]
  · rw [if_neg hall]
    rcases scores with _ | ⟨p, t⟩
    · simp at hall
    · rw [maxBySnd_cons]
      have hmem : t.foldl maxStep p ∈ p :: t := foldl_maxStep_mem p t
      rcases hfold : t.foldl maxStep p with ⟨tid, s⟩
      rw [hfold] at hmem
      have h0 : 0 ≤ s := hpos _ hmem
      have hle : s ≤ ((p :: t).map fun q => q.2).sum := snd_le_sum hpos hmem
      exact round2_share_bounds h0 hle

theorem classify_primary_conf_bounds (data : List Industry)
    (business_description : String) (additional_keywords : List String) :
    0 ≤ (classify_industry data business_description additional_keywords).primary_industry.confidence ∧
      (classify_industry data business_description additional_keywords).primary_industry.confidence ≤ 100 := by
  have h : (classify_industry data business_description additional_keywords).primary_industry.confidence =
      round2 (classifyTop (data.map fun ind => (ind.id, industryScore
        (buildCorpus business_description additional_keywords) ind))).2 := rfl
  rw [h]
  apply classifyTop_conf_bounds
  intro p hp
  rcases List.mem_map.mp hp with ⟨ind, _, rfl⟩
  exact industryScore_nonneg _ ind

/-- Confidence bounds for the sub-industry record. -/
theorem topSubFromScores_conf_bounds (subs : List SubIndustry)
    (sub_scores : List (String × Nat)) :
    0 ≤ (topSubFromScores subs sub_scores).confidence ∧
      (topSubFromScores subs sub_scores).confidence ≤ 100 := by
  unfold topSubFromScores
  by_cases hall : (sub_scores.all fun p => decide (p.2 = 0)) = true
  · rw [if_pos hall]
    norm_num
  · rw [if_neg hall]
    rcases sub_scores with _ | ⟨p, t⟩
    · simp at hall
    · rw [maxBySnd_cons]
      have hmem : t.foldl maxStep p ∈ p :: t := foldl_maxStep_mem p t
      rcases hfold : t.foldl maxStep p with ⟨sid, s⟩
      rw [hfold] at hmem
      have hle : s ≤ ((p :: t).map fun q => q.2).sum := snd_le_sum_nat hmem
      exact round2_share_bounds (by positivity) (by exact_mod_cast hle)

theorem foldl_add_eq_sum {β : Type} (w : β → ℚ) :
    ∀ (l : List β) (c : ℚ),
      l.foldl (fun acc b => acc + w b) c = c + (l.map w).sum := by
  intro l
  induction l with
  | nil => intro c; simp
  | cons b t ih => intro c; simp [ih, add_assoc]

theorem foldl_if_eq_sum_ite {β : Type} (P : β → Prop) [DecidablePred P]
    (w : β → ℚ) :
    ∀ (l : List β) (c : ℚ),
      l.foldl (fun acc b => if P b then acc + w b else acc) c =
        c + (l.map fun b => if P b then w b else 0).sum := by
  intro l
  induction l with
  | nil => intro c; simp
  | cons b t ih =>
    intro c
    by_cases hb : P b
    · simp [hb, ih, add_assoc]
    · simp [hb, ih]

/-- Confidence bounds for the final size/confidence pair, for any
`confidence_scores` dict with nonnegative weights. -/
theorem finalSizeAndConfidence_conf_bounds (cats : List String)
    (cs : List (String × MetricRecord)) (hw : ∀ p ∈ cs, 0 ≤ p.2.weight) :
    0 ≤ round2 (finalSizeAndConfidence cats cs).2 ∧
      round2 (finalSizeAndConfidence cats cs).2 ≤ 100 := by
  unfold finalSizeAndConfidence
  by_cases hc : cats.isEmpty = true
  · rw [if_pos hc]
    simp [round2_zero]
  · rw [if_neg hc]
    set final := ((maxBySnd (sizeCounts cats)).getD ("", 0)).1 with hfinal
    have hwt := foldl_if_eq_sum_ite (fun p : String × MetricRecord => p.2.size = final)
      (fun p => p.2.weight) cs 0
    have htot := foldl_add_eq_sum (fun p : String × MetricRecord => p.2.weight) cs 0
    have h0 : 0 ≤ (cs.map fun p => if p.2.size = final then p.2.weight else 0).sum := by
      apply List.sum_nonneg
      intro x hx
      rcases List.mem_map.mp hx with ⟨p, hp, rfl⟩
      by_cases hps : p.2.size = final <;> simp [hps]
      exact hw p hp
    have hle : (cs.map fun p => if p.2.size = final then p.2.weight else 0).sum ≤
        (cs.map fun p => p.2.weight).sum := by
      apply List.sum_le_sum
      intro p hp
      by_cases hps : p.2.size = final <;> simp [hps]
      exact hw p hp
    simp only [hwt, htot, zero_add]
    exact round2_share_bounds h0 hle

theorem setKey_weight_nonneg {m : List (String × MetricRecord)} {k : String}
    {v : MetricRecord} (hm : ∀ p ∈ m, 0 ≤ p.2.weight) (hv : 0 ≤ v.weight) :
    ∀ p ∈ setKey m k v, 0 ≤ p.2.weight := by
  unfold setKey
  intro p hp
  split at hp
  · rcases List.mem_map.mp hp with ⟨q, hq, rfl⟩
    by_cases hqk : q.1 = k
    · simpa [hqk] using hv
    · simpa [hqk] using hm q hq
  · rcases List.mem_append.mp hp with h | h
    · exact hm p h
    · simp at h
      rw [h]
      exact hv

/-- Every weight recorded by `evalMetrics` is nonnegative (they are all
0.4 or 0.2). -/
theorem evalMetrics_weight_nonneg (ths : MetricThresholds)
    (employees_count annual_revenue : Option ℚ)
    (additional_metrics : List (String × ℚ)) :
    ∀ p ∈ (evalMetrics ths employees_count annual_revenue additional_metrics).2,
      0 ≤ p.2.weight := by
  unfold evalMetrics
  have haux : ∀ (a : List (String × ℚ)) (st : List String × List (String × MetricRecord)),
      (∀ p ∈ st.2, 0 ≤ p.2.weight) →
      ∀ p ∈ (a.foldl
        (fun st m =>
          match ths.find? fun p => p.1 = m.1 with
          | some p =>
            let s := categorize_metric m.2 p.2
            if s ≠ "" then (st.1 ++ [s], setKey st.2 m.1 ⟨s, 1/5⟩) else st
          | none => st)
        st).2, 0 ≤ p.2.weight := by
    intro a
    induction a with
    | nil => intro st hst; exact hst
    | cons m t ih =>
      intro st hst
      simp only [List.foldl_cons]
      apply ih
      rcases hf : ths.find? fun p => p.1 = m.1 with _ | q
      · simpa [hf] using hst
      · by_cases hs : categorize_metric m.2 q.2 ≠ ""
        · simp only [hf]
          rw [if_pos hs]
          apply setKey_weight_nonneg hst
          norm_num
        · simpa [hf, hs] using hst
  apply haux
  -- the employees / revenue steps
  have h0 : ∀ p ∈ (([], []) : List String × List (String × MetricRecord)).2,
      0 ≤ p.2.weight := by simp
  have hstep : ∀ (st : List String × List (String × MetricRecord))
      (v : Option ℚ) (name : String) (w : ℚ), 0 ≤ w →
      (∀ p ∈ st.2, 0 ≤ p.2.weight) →
      ∀ p ∈ ((match v with
        | some x =>
          match ths.find? fun p => p.1 = name with
          | some q =>
            let s := categorize_metric x q.2
            if s ≠ "" then (st.1 ++ [s], setKey st.2 name ⟨s, w⟩) else st
          | none => st
        | none => st : List String × List (String × MetricRecord))).2,
        0 ≤ p.2.weight := by
    intro st v name w hwv hst
    rcases v with _ | x
    · exact hst
    · rcases hf : ths.find? fun p => p.1 = name with _ | q
      · simpa [hf] using hst
      · by_cases hs : categorize_metric x q.2 ≠ ""
        · simp only [hf]
          rw [if_pos hs]
          apply setKey_weight_nonneg hst
          simpa using hwv
        · simpa [hf, hs] using hst
  exact hstep _ annual_revenue "revenue" (2/5) (by norm_num)
    (hstep _ employees_count "employees" (2/5) (by norm_num) h0)

/-- Projections of a successful `analyze_business_size` call. -/
theorem analyze_some_projections {industry : String}
    {employees_count annual_revenue : Option ℚ}
    {additional_metrics : List (String × ℚ)} {rec : SizeAnalysis}
    (h : analyze_business_size industry employees_count annual_revenue
      additional_metrics = some rec) :
    rec.size_category =
      (finalSizeAndConfidence
        (evalMetrics (thresholdsFor industry) employees_count annual_revenue additional_metrics).1
        (evalMetrics (thresholdsFor industry) employees_count annual_revenue additional_metrics).2).1 ∧
    rec.confidence =
      round2 (finalSizeAndConfidence
        (evalMetrics (thresholdsFor industry) employees_count annual_revenue additional_metrics).1
        (evalMetrics (thresholdsFor industry) employees_count annual_revenue additional_metrics).2).2 := by
  simp only [analyze_business_size] at h
  rcases hcs : (evalMetrics (thresholdsFor industry) employees_count annual_revenue
      additional_metrics).2 with _ | ⟨c0, cst⟩ <;>
    rcases hlast : additional_metrics.getLast? with _ | last <;>
    rw [hcs, hlast] at h
  · rw [← Option.some_injective _ h]
    exact ⟨rfl, rfl⟩
  · rw [← Option.some_injective _ h]
    exact ⟨rfl, rfl⟩
  · exact Option.noConfusion h
  · rw [← Option.some_injective _ h]
    exact ⟨rfl, rfl⟩

theorem industryRoleResult_conf_bounds (text : List Char)
    (ot : Option (List RoleInfo)) :
    0 ≤ (((industryRoleResult text ot).map RoleResult.confidence).getD 0) ∧
      (((industryRoleResult text ot).map RoleResult.confidence).getD 0) ≤ 100 := by
  rcases ot with _ | t
  · simp [industryRoleResult]
  · unfold industryRoleResult
    by_cases he : (roleScores text t).isEmpty = true
    · simp [he]
    · simp only [he, Bool.false_eq_true, if_false, Option.map_some', Option.getD_some]
      exact ghsr_conf_bounds _ t none
        (fun p hp => le_of_lt (roleScores_pos text t p hp))

/-! ## The claims -/

/-- C1: for every input and the default taxonomy data, every confidence
field produced by `classify_industry` (primary and sub-industry),
`analyze_business_size` (whenever it returns a result — a call with
evaluated metrics but no additional metrics raises in the source, see
`analyze_business_size`), and `recognize_role` (organizational,
functional, and industry-specific when present) lies in [0, 100],
including for empty text and all-zero metrics. -/
theorem C1_confidence_in_range
    (business_description : String) (additional_keywords : List String)
    (industry : String) (employees_count annual_revenue : Option ℚ)
    (additional_metrics : List (String × ℚ))
    (job_title : String) (additional_info role_industry : Option String) :
    (0 ≤ (classify_industry defaultIndustries business_description
        additional_keywords).primary_industry.confidence ∧
      (classify_industry defaultIndustries business_description
        additional_keywords).primary_industry.confidence ≤ 100) ∧
    (0 ≤ (classify_industry defaultIndustries business_description
        additional_keywords).sub_industry.confidence ∧
      (classify_industry defaultIndustries business_description
        additional_keywords).sub_industry.confidence ≤ 100) ∧
    (∀ rec, analyze_business_size industry employees_count annual_revenue
        additional_metrics = some rec →
      0 ≤ rec.confidence ∧ rec.confidence ≤ 100) ∧
    (0 ≤ (recognize_role job_title additional_info
        role_industry).organizational_role.confidence ∧
      (recognize_role job_title additional_info
        role_industry).organizational_role.confidence ≤ 100) ∧
    (0 ≤ (recognize_role job_title additional_info
        role_industry).functional_role.confidence ∧
      (recognize_role job_title additional_info
        role_industry).functional_role.confidence ≤ 100) ∧
    (0 ≤ (((recognize_role job_title additional_info
        role_industry).industry_specific_role).map RoleResult.confidence).getD 0 ∧
      (((recognize_role job_title additional_info
        role_industry).industry_specific_role).map RoleResult.confidence).getD 0 ≤ 100) := by
  refine ⟨?_, ?_, ?_, ?_, ?_, ?_⟩
  · exact classify_primary_conf_bounds defaultIndustries business_description
      additional_keywords
  · exact topSubFromScores_conf_bounds _ _
  · intro rec h
    obtain ⟨_, hconf⟩ := analyze_some_projections h
    rw [hconf]
    exact finalSizeAndConfidence_conf_bounds _ _
      (evalMetrics_weight_nonneg _ employees_count annual_revenue additional_metrics)
  · exact ghsr_conf_bounds _ organizational_roles _
      (fun p hp => le_of_lt (roleScores_pos _ _ p hp))
  · exact ghsr_conf_bounds _ functional_roles _
      (fun p hp => le_of_lt (roleScores_pos _ _ p hp))
  · exact industryRoleResult_conf_bounds _ _

/-- Witness for C1 at a concrete successful `analyze_business_size`
call (the spec scenario: retail, 75 employees, 8M revenue, 5
locations). -/
theorem C1_confidence_in_range_witness :
    0 ≤ ((analyze_business_size "retail" (some 75) (some 8000000)
        [("locations", 5)]).getD
        { size_category := "", confidence := 0, description := "",
          challenges := [], opportunities := [], metrics_analysis := [] }).confidence ∧
    ((analyze_business_size "retail" (some 75) (some 8000000)
        [("locations", 5)]).getD
        { size_category := "", confidence := 0, description := "",
          challenges := [], opportunities := [], metrics_analysis := [] }).confidence ≤ 100 :=
  (C1_confidence_in_range "" [] "retail" (some 75) (some 8000000)
      [("locations", 5)] "" none none).2.2.1 _ (by with_unfolding_all rfl)

/-- C7: in role scoring, each keyword contributes (number of whole-word
occurrences of the lowercased keyword in the corpus) times
`0.5 + len(keyword)/20`, and the role's score is the sum of these
contributions over its keywords. -/
theorem C7_role_score_is_length_weighted_sum (text : List Char)
    (keywords : List String) :
    calculate_role_score text keywords =
      (keywords.map fun kw =>
        (countOcc (toLowerChars kw) text : ℚ) *
          (1 / 2 + (kw.length : ℚ) / 20)).sum :=
  calculate_role_score_eq_sum text keywords

set_option maxRecDepth 200000 in
/-- C3: with the default taxonomy, classifying the online-electronics
retailer description with the extra keywords yields primary industry
`"retail"` and sub-industry `"electronics"`. -/
theorem C3_retail_electronics_scenario :
    (classify_industry defaultIndustries
      "We are an online retailer specializing in electronics and computer accessories."
      ["e-commerce", "online store", "gadgets"]).primary_industry.id = "retail" ∧
    (classify_industry defaultIndustries
      "We are an online retailer specializing in electronics and computer accessories."
      ["e-commerce", "online store", "gadgets"]).sub_industry.id = "electronics" := by
  constructor
  · with_unfolding_all rfl
  · with_unfolding_all rfl

theorem matchAt_head {kw t : List Char} {i : Nat} {c : Char}
    (hhead : kw.head? = some c)
    (hsub : (t.drop i).take kw.length = kw) :
    t.get? i = some c := by
  have hne : kw ≠ [] := by
    intro h
    rw [h] at hhead
    simp at hhead
  obtain ⟨s, hs⟩ := List.prefix_iff_eq_take.mpr hsub.symm
  have h0 : (t.drop i).head? = some c := by
    rw [← hs]
    rcases kw with _ | ⟨k0, kr⟩
    · exact absurd rfl hne
    · simp only [List.head?_cons, Option.some.injEq] at hhead
      simp [hhead]
  rw [List.get?_eq_getElem?]
  rw [List.head?_eq_getElem?, List.getElem?_drop] at h0
  simpa using h0

theorem matchAt_last {kw t : List Char} {i : Nat} {c : Char}
    (hne : kw ≠ []) (hlast : kw.getLast? = some c)
    (hsub : (t.drop i).take kw.length = kw) :
    t.get? (i + kw.length - 1) = some c := by
  obtain ⟨s, hs⟩ := List.prefix_iff_eq_take.mpr hsub.symm
  have hlen : 0 < kw.length := List.length_pos.mpr hne
  have hidx : kw[kw.length - 1]? = some c := by
    rw [List.getLast?_eq_getElem?] at hlast
    exact hlast
  have harith : i + kw.length - 1 = i + (kw.length - 1) := by omega
  rw [List.get?_eq_getElem?, harith, ← List.getElem?_drop, ← hs,
    List.getElem?_append_left (by omega)]
  exact hidx

/-- A keyword whose first character is a word character never matches
right after another word character. -/
theorem matchAt_false_of_wordchar_before (kw t : List Char) (i : Nat)
    (c d : Char) (hhead : kw.head? = some c) (hwc : isWordChar c = true)
    (hi : 0 < i) (hprev : t.get? (i - 1) = some d)
    (hwd : isWordChar d = true) :
    matchAt kw t i = false := by
  unfold matchAt
  by_cases hsub : (t.drop i).take kw.length = kw
  · have hti := matchAt_head hhead hsub
    have hb : isBoundary (if i = 0 then none else t.get? (i - 1)) (t.get? i) = false := by
      rw [if_neg (by omega : ¬ i = 0), hprev, hti]
      simp [isBoundary, hwd, hwc]
    rw [hb]
    simp
  · simp [hsub]

/-- A keyword whose last character is a word character never matches
right before another word character. -/
theorem matchAt_false_of_wordchar_after (kw t : List Char) (i : Nat)
    (c d : Char) (hne : kw ≠ []) (hlast : kw.getLast? = some c)
    (hwc : isWordChar c = true) (hnext : t.get? (i + kw.length) = some d)
    (hwd : isWordChar d = true) :
    matchAt kw t i = false := by
  unfold matchAt
  by_cases hsub : (t.drop i).take kw.length = kw
  · have hti := matchAt_last hne hlast hsub
    have hb : isBoundary (t.get? (i + kw.length - 1)) (t.get? (i + kw.length)) = false := by
      rw [hnext, hti]
      simp [isBoundary, hwd, hwc]
    rw [hb]
    simp
  · simp [hsub]

/-- C2: keyword matching is whole-word: a match position adjacent to a
word character (on the side where the keyword edge is itself a word
character) is rejected, so occurrences strictly inside a longer word
contribute to no score; concretely, "bank" scores 0 against the corpus
"banking" and exactly one occurrence against the corpus "bank", in both
the industry scorer and the role scorer. -/
theorem C2_whole_word_matching :
    (∀ (kw t : List Char) (i : Nat) (c d : Char),
      kw.head? = some c → isWordChar c = true →
      0 < i → t.get? (i - 1) = some d → isWordChar d = true →
      matchAt kw t i = false) ∧
    (∀ (kw t : List Char) (i : Nat) (c d : Char),
      kw ≠ [] → kw.getLast? = some c → isWordChar c = true →
      t.get? (i + kw.length) = some d → isWordChar d = true →
      matchAt kw t i = false) ∧
    countOcc "bank".toList "banking".toList = 0 ∧
    countOcc "bank".toList "bank".toList = 1 ∧
    keywordScoreNat "banking".toList ["bank"] = 0 ∧
    keywordScoreNat "bank".toList ["bank"] = 1 ∧
    calculate_role_score "banking".toList ["bank"] = 0 ∧
    calculate_role_score "bank".toList ["bank"] = 1 * (1 / 2 + 4 / 20) := by
  refine ⟨matchAt_false_of_wordchar_before, matchAt_false_of_wordchar_after,
    by decide, by decide, by decide, by decide, ?_, ?_⟩
  · with_unfolding_all rfl
  · with_unfolding_all rfl

/-- Witness for C2 at concrete inputs: "bank" inside "xbank" (word
character before) and inside "bankx" (word character after) is not
counted. -/
theorem C2_whole_word_matching_witness :
    matchAt "bank".toList "xbank".toList 1 = false ∧
    matchAt "bank".toList "bankx".toList 0 = false :=
  ⟨C2_whole_word_matching.1 "bank".toList "xbank".toList 1 'b' 'x'
      rfl (by decide) (by decide) rfl (by decide),
    C2_whole_word_matching.2.1 "bank".toList "bankx".toList 0 'k' 'x'
      (by decide) rfl (by decide) rfl (by decide)⟩

theorem defaultIndustries_ids_nodup :
    (defaultIndustries.map fun i => i.id).Nodup := by decide

theorem classifyTop_zero (scores : List (String × ℚ))
    (hall : ∀ p ∈ scores, p.2 = 0) :
    classifyTop scores = ("technology", 0) := by
  unfold classifyTop
  rw [if_pos]
  exact List.all_eq_true.mpr fun p hp => decide_eq_true (hall p hp)

/-- C4 (amended): whenever some industry keyword hits, the primary
industry's confidence is `100 × score / total` *rounded to two decimal
places* (the source applies `round(confidence, 2)`); with no hit
anywhere the primary industry is `"technology"` with confidence 0, and
a result is always produced. -/
theorem C4_confidence_share_and_fallback (business_description : String)
    (additional_keywords : List String) :
    ((∃ ind ∈ defaultIndustries,
        industryScore (buildCorpus business_description additional_keywords) ind ≠ 0) →
      (classify_industry defaultIndustries business_description
          additional_keywords).primary_industry.confidence =
        round2 (100 * industryScoreById
            (buildCorpus business_description additional_keywords)
            (classify_industry defaultIndustries business_description
              additional_keywords).primary_industry.id /
          totalIndustryScore (buildCorpus business_description additional_keywords))) ∧
    ((∀ ind ∈ defaultIndustries,
        industryScore (buildCorpus business_description additional_keywords) ind = 0) →
      (classify_industry defaultIndustries business_description
          additional_keywords).primary_industry.id = "technology" ∧
      (classify_industry defaultIndustries business_description
          additional_keywords).primary_industry.confidence = 0) := by
  have hid : (classify_industry defaultIndustries business_description
      additional_keywords).primary_industry.id =
      (classifyTop (defaultIndustries.map fun ind =>
        (ind.id, industryScore (buildCorpus business_description additional_keywords) ind))).1 := rfl
  have hconf : (classify_industry defaultIndustries business_description
      additional_keywords).primary_industry.confidence =
      round2 (classifyTop (defaultIndustries.map fun ind =>
        (ind.id, industryScore (buildCorpus business_description additional_keywords) ind))).2 := rfl
  constructor
  · rintro ⟨ind, hmem, hnz⟩
    have hallne : ¬ (((defaultIndustries.map fun ind =>
        (ind.id, industryScore (buildCorpus business_description additional_keywords) ind)).all
          fun p => decide (p.2 = 0)) = true) := by
      intro hall
      have h1 := List.all_eq_true.mp hall
        (ind.id, industryScore (buildCorpus business_description additional_keywords) ind)
        (List.mem_map_of_mem _ hmem)
      exact hnz (of_decide_eq_true h1)
    have hne : (defaultIndustries.map fun ind =>
        (ind.id, industryScore (buildCorpus business_description additional_keywords) ind)) ≠ [] := by
      intro h
      have h2 := List.mem_map_of_mem (fun ind => (ind.id, industryScore
        (buildCorpus business_description additional_keywords) ind)) hmem
      rw [h] at h2
      simp at h2
    obtain ⟨r, hmax⟩ := maxBySnd_some_of_ne_nil hne
    obtain ⟨tid, s⟩ := r
    have hct : classifyTop (defaultIndustries.map fun ind =>
        (ind.id, industryScore (buildCorpus business_description additional_keywords) ind)) =
        (tid, shareConfidence s (((defaultIndustries.map fun ind =>
          (ind.id, industryScore (buildCorpus business_description additional_keywords) ind)).map
            fun p => p.2).sum)) := by
      unfold classifyTop
      rw [if_neg hallne, hmax]
    obtain ⟨ind2, hind2, heq⟩ := List.mem_map.mp (maxBySnd_mem hmax)
    have hid2 : ind2.id = tid := congrArg Prod.fst heq
    have hs2 : industryScore (buildCorpus business_description additional_keywords) ind2 = s :=
      congrArg Prod.snd heq
    have hfind : defaultIndustries.find? (fun i => i.id = tid) = some ind2 := by
      rw [← hid2]
      exact find?_eq_some_of_mem (fun i => i.id) defaultIndustries_ids_nodup hind2
    have hsbid : industryScoreById (buildCorpus business_description additional_keywords) tid = s := by
      unfold industryScoreById
      rw [hfind]
      simpa using hs2
    have htot : (((defaultIndustries.map fun ind =>
        (ind.id, industryScore (buildCorpus business_description additional_keywords) ind)).map
          fun p => p.2).sum) =
        totalIndustryScore (buildCorpus business_description additional_keywords) := by
      unfold totalIndustryScore
      rw [List.map_map]
      rfl
    have htotpos : 0 < totalIndustryScore (buildCorpus business_description additional_keywords) := by
      have hnn : ∀ x ∈ defaultIndustries.map fun j =>
          industryScore (buildCorpus business_description additional_keywords) j, 0 ≤ x := by
        intro x hx
        rcases List.mem_map.mp hx with ⟨j, _, rfl⟩
        exact industryScore_nonneg _ j
      have hmem3 : industryScore (buildCorpus business_description additional_keywords) ind ∈
          defaultIndustries.map fun j =>
            industryScore (buildCorpus business_description additional_keywords) j :=
        List.mem_map_of_mem _ hmem
      have hle := List.single_le_sum hnn _ hmem3
      have hpos : 0 < industryScore (buildCorpus business_description additional_keywords) ind :=
        lt_of_le_of_ne (industryScore_nonneg _ ind) (Ne.symm hnz)
      unfold totalIndustryScore
      linarith
    rw [hconf, hid, hct]
    show round2 (shareConfidence s _) = _
    rw [htot, hsbid]
    unfold shareConfidence
    rw [if_pos htotpos]
    exact congrArg round2 (by ring)
  · intro hzero
    have hct : classifyTop (defaultIndustries.map fun ind =>
        (ind.id, industryScore (buildCorpus business_description additional_keywords) ind)) =
        ("technology", 0) := by
      apply classifyTop_zero
      intro p hp
      rcases List.mem_map.mp hp with ⟨j, hj, rfl⟩
      exact hzero j hj
    rw [hid, hconf, hct]
    exact ⟨rfl, round2_zero⟩

set_option maxRecDepth 200000 in
/-- Counterexample to C4 as stated: on the description
"hotel store store" the retail score is 2 of a 3.5 total, so the exact
share is 400/7 ≈ 57.142857, while the source stores the two-decimal
rounding 57.14: the produced confidence is not `100 × score / total`. -/
theorem C4_counterexample :
    (∃ ind ∈ defaultIndustries,
      industryScore (buildCorpus "hotel store store" []) ind ≠ 0) ∧
    (classify_industry defaultIndustries "hotel store store"
      []).primary_industry.id = "retail" ∧
    (classify_industry defaultIndustries "hotel store store"
      []).primary_industry.confidence = 2857 / 50 ∧
    100 * industryScoreById (buildCorpus "hotel store store" []) "retail" /
        totalIndustryScore (buildCorpus "hotel store store" []) = 400 / 7 ∧
    (2857 / 50 : ℚ) ≠ 400 / 7 := by
  refine ⟨⟨retailIndustry, by decide, ?_⟩, ?_, ?_, ?_, by norm_num⟩
  · have h : industryScore (buildCorpus "hotel store store" []) retailIndustry = 2 := by
      with_unfolding_all rfl
    rw [h]
    norm_num
  · with_unfolding_all rfl
  · with_unfolding_all rfl
  · with_unfolding_all rfl

set_option maxRecDepth 200000 in
/-- Witness for the amended C4 at a concrete input with a keyword hit. -/
theorem C4_confidence_share_and_fallback_witness :
    (classify_industry defaultIndustries "hotel store store"
        []).primary_industry.confidence =
      round2 (100 * industryScoreById (buildCorpus "hotel store store" [])
          (classify_industry defaultIndustries "hotel store store"
            []).primary_industry.id /
        totalIndustryScore (buildCorpus "hotel store store" [])) :=
  (C4_confidence_share_and_fallback "hotel store store" []).1
    ⟨retailIndustry, by decide, by
      have h : industryScore (buildCorpus "hotel store store" []) retailIndustry = 2 := by
        with_unfolding_all rfl
      rw [h]
      norm_num⟩

/-- C8: every id-keyed lookup degrades to its designated default and
never raises: unrecognized industry ids resolve to the `"technology"`
record, unrecognized size categories (after lowercasing) to the
`"medium"` record, unrecognized organizational role ids to the
`"manager"` communication strategy, and unrecognized role lookups to
their documented default, the empty record (`none`). -/
theorem C8_lookup_defaults :
    (∀ industry_id : String, (∀ i ∈ defaultIndustries, i.id ≠ industry_id) →
      get_industry_information defaultIndustries industry_id = technologyIndustry) ∧
    (∀ size_category : String,
      (∀ p ∈ size_characteristics, p.1 ≠ (toLowerChars size_category).asString) →
      get_size_information size_category = mediumCharacteristics) ∧
    (∀ organizational_role : String,
      (∀ p ∈ communication_strategies, p.1 ≠ organizational_role) →
      get_communication_strategy organizational_role = managerStrategy) ∧
    (∀ (role_type role_id : String) (industry : Option String),
      (∀ r ∈ organizational_roles, r.id ≠ role_id) →
      (∀ r ∈ functional_roles, r.id ≠ role_id) →
      (∀ p ∈ industry_specific_roles, ∀ r ∈ p.2, r.id ≠ role_id) →
      get_role_information role_type role_id industry = none) := by
  refine ⟨?_, ?_, ?_, ?_⟩
  · intro industry_id h
    unfold get_industry_information
    have hf : defaultIndustries.find? (fun i => i.id = industry_id) = none :=
      List.find?_eq_none.mpr fun i hi => by simpa using h i hi
    rw [hf]
    rfl
  · intro size_category h
    show (match size_characteristics.find?
        (fun p => p.1 = (toLowerChars size_category).asString) with
      | some p => p.2
      | none => mediumCharacteristics) = mediumCharacteristics
    have hf : size_characteristics.find?
        (fun p => p.1 = (toLowerChars size_category).asString) = none :=
      List.find?_eq_none.mpr fun p hp => by simpa using h p hp
    rw [hf]
  · intro organizational_role h
    unfold get_communication_strategy
    have hf : communication_strategies.find?
        (fun p => p.1 = organizational_role) = none :=
      List.find?_eq_none.mpr fun p hp => by simpa using h p hp
    rw [hf]
  · intro role_type role_id industry h1 h2 h3
    unfold get_role_information
    have ha1 : (organizational_roles.any fun r => r.id = role_id) = false :=
      List.any_eq_false.mpr fun r hr => by simpa using h1 r hr
    have ha2 : (functional_roles.any fun r => r.id = role_id) = false :=
      List.any_eq_false.mpr fun r hr => by simpa using h2 r hr
    rw [if_neg (by
      rintro ⟨_, hb⟩
      rw [ha1] at hb
      exact Bool.false_ne_true hb)]
    rw [if_neg (by
      rintro ⟨_, hb⟩
      rw [ha2] at hb
      exact Bool.false_ne_true hb)]
    rcases industry with _ | ind
    · rfl
    · show (if role_type = "industry_specific" ∧ ind ≠ "" then
          match industry_specific_roles.find? (fun p => p.1 = ind) with
          | some p => p.2.find? (fun r => r.id = role_id)
          | none => none
        else none) = none
      by_cases hc : role_type = "industry_specific" ∧ ind ≠ ""
      · rw [if_pos hc]
        rcases hf : industry_specific_roles.find? (fun p => p.1 = ind) with _ | p
        · rw [hf]
        · rw [hf]
          have hp : p ∈ industry_specific_roles := List.mem_of_find?_eq_some hf
          refine List.find?_eq_none.mpr fun r hr => ?_
          simpa using h3 p hp r hr
      · rw [if_neg hc]

/-- Witness for C8 at unrecognized ids. -/
theorem C8_lookup_defaults_witness :
    get_industry_information defaultIndustries "nonexistent" = technologyIndustry ∧
    get_size_information "gigantic" = mediumCharacteristics ∧
    get_communication_strategy "intern" = managerStrategy ∧
    get_role_information "organizational" "wizard" none = none :=
  ⟨C8_lookup_defaults.1 "nonexistent" (by decide),
   C8_lookup_defaults.2.1 "gigantic" (by decide),
   C8_lookup_defaults.2.2.1 "intern" (by decide),
   C8_lookup_defaults.2.2.2 "organizational" "wizard" none (by decide)
     (by decide) (by decide)⟩

/-- C10: an industry id is a key of the result's `all_matches` iff that
industry's score is strictly positive; on the zero-signal fallback
`all_matches` is empty and the reported primary industry
(`"technology"`) is itself absent from it. -/
theorem C10_all_matches_iff_positive (business_description : String)
    (additional_keywords : List String) :
    (∀ ind ∈ defaultIndustries,
      (ind.id ∈ (classify_industry defaultIndustries business_description
          additional_keywords).all_matches.map IndustryMatch.id ↔
        0 < industryScore (buildCorpus business_description additional_keywords) ind)) ∧
    ((∀ ind ∈ defaultIndustries,
        industryScore (buildCorpus business_description additional_keywords) ind = 0) →
      (classify_industry defaultIndustries business_description
        additional_keywords).all_matches = [] ∧
      (classify_industry defaultIndustries business_description
        additional_keywords).primary_industry.id = "technology" ∧
      "technology" ∉ (classify_industry defaultIndustries business_description
        additional_keywords).all_matches.map IndustryMatch.id) := by
  have hmap : (classify_industry defaultIndustries business_description
      additional_keywords).all_matches.map IndustryMatch.id =
      (defaultIndustries.filter fun ind => decide (0 < industryScore
        (buildCorpus business_description additional_keywords) ind)).map
        (fun ind => ind.id) := by
    show (classifyAllMatches defaultIndustries
      (buildCorpus business_description additional_keywords)).map IndustryMatch.id = _
    unfold classifyAllMatches
    rw [List.map_map]
    rfl
  constructor
  · intro ind hmem
    rw [hmap]
    constructor
    · intro hin
      rcases List.mem_map.mp hin with ⟨j, hj, hid⟩
      rcases List.mem_filter.mp hj with ⟨hjmem, hjP⟩
      have hji : j = ind :=
        List.inj_on_of_nodup_map defaultIndustries_ids_nodup hjmem hmem hid
      exact of_decide_eq_true (hji ▸ hjP)
    · intro hpos
      exact List.mem_map_of_mem _ (List.mem_filter.mpr ⟨hmem, decide_eq_true hpos⟩)
  · intro hzero
    have hfilter : (defaultIndustries.filter fun ind => decide (0 < industryScore
        (buildCorpus business_description additional_keywords) ind)) = [] :=
      List.filter_eq_nil_iff.mpr fun a ha => by simp [hzero a ha]
    have hall_matches : (classify_industry defaultIndustries business_description
        additional_keywords).all_matches = [] := by
      show classifyAllMatches defaultIndustries
        (buildCorpus business_description additional_keywords) = []
      unfold classifyAllMatches
      rw [hfilter]
      rfl
    refine ⟨hall_matches, ?_, by rw [hall_matches]; simp⟩
    have hct : classifyTop (defaultIndustries.map fun ind =>
        (ind.id, industryScore (buildCorpus business_description additional_keywords) ind)) =
        ("technology", 0) :=
      classifyTop_zero _ (fun p hp => by
        rcases List.mem_map.mp hp with ⟨j, hj, rfl⟩
        exact hzero j hj)
    show (classifyTop (defaultIndustries.map fun ind =>
      (ind.id, industryScore (buildCorpus business_description additional_keywords) ind))).1 = "technology"
    rw [hct]

set_option maxRecDepth 200000 in
/-- Witness for C10 at the empty description: nothing scores, so
`all_matches` is empty and the fallback primary is absent from it. -/
theorem C10_all_matches_iff_positive_witness :
    (technologyIndustry.id ∈ (classify_industry defaultIndustries "" []).all_matches.map
        IndustryMatch.id ↔
      0 < industryScore (buildCorpus "" []) technologyIndustry) ∧
    ((classify_industry defaultIndustries "" []).all_matches = [] ∧
      (classify_industry defaultIndustries "" []).primary_industry.id = "technology" ∧
      "technology" ∉ (classify_industry defaultIndustries "" []).all_matches.map
        IndustryMatch.id) :=
  ⟨(C10_all_matches_iff_positive "" []).1 technologyIndustry (by decide),
   (C10_all_matches_iff_positive "" []).2 (fun ind hind => by
     fin_cases hind <;> with_unfolding_all rfl)⟩

/-- Counterexample to C6 as stated: a range with both bounds absent
contains every value under the spec's open-ended reading, yet the
source's `if/elif` chain has no branch for it and skips it, so the
first-containing-range label ("tiny") is not returned. -/
theorem C6_counterexample :
    specRangeContains 5 ⟨none, none⟩ = true ∧
    ([("tiny", (⟨none, none⟩ : MRange))].find? fun p =>
        specRangeContains 5 p.2) = some ("tiny", ⟨none, none⟩) ∧
    categorize_metric 5 [("tiny", ⟨none, none⟩)] = "medium" ∧
    "medium" ≠ "tiny" := by
  refine ⟨rfl, rfl, rfl, by decide⟩

/-- C6 (amended): `_categorize_metric` returns the label of the first
range, in the threshold set's defined order, whose (possibly
open-ended) bounds contain the value *and which has at least one bound
present* (a range with neither bound is skipped); if no such range
exists it returns `"medium"`. -/
theorem C6_first_matching_range (value : ℚ) :
    ∀ thresholds : ThresholdSet,
      categorize_metric value thresholds =
        (match thresholds.find? (fun p =>
            specRangeContains value p.2 && (p.2.min.isSome || p.2.max.isSome)) with
          | some p => p.1
          | none => "medium") := by
  intro thresholds
  induction thresholds with
  | nil => rfl
  | cons q rest ih =>
    obtain ⟨size, mn, mx⟩ := q
    rcases mn with _ | lo <;> rcases mx with _ | hi
    · show categorize_metric value rest = _
      rw [ih]
      rfl
    · by_cases h : value ≤ hi
      · show (if value ≤ hi then size else categorize_metric value rest) = _
        rw [if_pos h]
        simp [List.find?_cons, specRangeContains, h]
      · show (if value ≤ hi then size else categorize_metric value rest) = _
        rw [if_neg h, ih]
        simp [List.find?_cons, specRangeContains, h]
    · by_cases h : lo ≤ value
      · show (if lo ≤ value then size else categorize_metric value rest) = _
        rw [if_pos h]
        simp [List.find?_cons, specRangeContains, h]
      · show (if lo ≤ value then size else categorize_metric value rest) = _
        rw [if_neg h, ih]
        simp [List.find?_cons, specRangeContains, h]
    · by_cases h : lo ≤ value ∧ value ≤ hi
      · show (if lo ≤ value ∧ value ≤ hi then size else categorize_metric value rest) = _
        rw [if_pos h]
        simp [List.find?_cons, specRangeContains, h.1, h.2]
      · show (if lo ≤ value ∧ value ≤ hi then size else categorize_metric value rest) = _
        rw [if_neg h, ih]
        rcases not_and_or.mp h with h' | h' <;>
          simp [List.find?_cons, specRangeContains, h']

/-- Counting in a membership-filtered list. -/
theorem count_filter_not_contains (old new : List String) (kw : String) :
    (new.filter fun x => !(old.contains x)).count kw =
      if kw ∈ old then 0 else new.count kw := by
  induction new with
  | nil => simp
  | cons x t ih =>
    by_cases hx : x ∈ old
    · rw [List.filter_cons_of_neg (by simpa using hx), ih]
      by_cases hkw : kw ∈ old
      · simp [hkw]
      · have hxkw : x ≠ kw := fun h => hkw (h ▸ hx)
        simp [hkw, List.count_cons, hxkw]
    · rw [List.filter_cons_of_pos (by simpa using hx)]
      by_cases hkw : kw ∈ old
      · have hxkw : ¬ (x == kw) = true := by
          intro h
          exact hx ((eq_of_beq h) ▸ hkw)
        simp only [List.count_cons, ih]
        simp [hkw, hxkw]
      · simp [List.count_cons, ih, hkw]

/-- Counterexample to C9 as stated: resupplying the already-present
keyword "retail" to the retail industry leaves its keyword list
unchanged — the element does *not* appear more than once, because
`update_industry_data` filters supplied keywords by membership. -/
theorem C9_counterexample :
    "retail" ∈ retailIndustry.keywords ∧
    ((update_industry_data defaultIndustries
        [{ id := "retail", keywords := some ["retail"] }]).find?
          fun i => i.id = "retail") = some retailIndustry ∧
    retailIndustry.keywords.count "retail" = 1 := by
  refine ⟨by decide, by decide, by decide⟩

/-- C9 (amended): in `update_size_data` and `update_role_data`,
list-valued keys are concatenated onto the existing lists without
deduplication (a resupplied element appears more than once), and
dict-valued keys of a known category are merged key-by-key with a
supplied value replacing the existing one; but in
`update_industry_data` keyword lists are extended only with the
supplied keywords *not already present*, so a resupplied keyword does
not duplicate (while duplicates among the genuinely new keywords are
all appended). -/
theorem C9_update_merge_semantics :
    (∀ (old new : List String) (kw : String),
      (mergeKeywords old new).count kw =
        old.count kw + if kw ∈ old then 0 else new.count kw) ∧
    (∀ kws : List String,
      ((update_industry_data defaultIndustries
          [{ id := "retail", keywords := some kws }]).find?
            fun i => i.id = "retail").map (fun i => i.keywords) =
        some (mergeKeywords retailIndustry.keywords kws)) ∧
    (∀ (old new : List JValue) (k : String),
      update_size_data [(k, .list old)] [(k, .list new)] =
        some [(k, .list (old ++ new))]) ∧
    (∀ (old new : List JValue) (k : String),
      update_role_data [(k, .list old)] [(k, .list new)] =
        some [(k, .list (old ++ new))]) ∧
    (update_size_data [("tags", .list [.str "a"])] [("tags", .list [.str "a"])] =
      some [("tags", .list [.str "a", .str "a"])]) ∧
    (∀ (ko a b xs ys zs : String), a ≠ b →
      update_size_data [(ko, .obj [(a, .str xs), (b, .str ys)])]
          [(ko, .obj [(b, .str zs)])] =
        some [(ko, .obj [(a, .str xs), (b, .str zs)])]) := by
  refine ⟨?_, ?_, ?_, ?_, ?_, ?_⟩
  · intro old new kw
    unfold mergeKeywords
    rw [List.count_append, count_filter_not_contains]
  · intro kws
    rfl
  · intro old new k
    simp [update_size_data, mergeDataDoc, setKeyJ, List.find?_cons]
  · intro old new k
    simp [update_role_data, mergeDataDoc, setKeyJ, List.find?_cons]
  · rfl
  · intro ko a b xs ys zs hab
    simp [update_size_data, mergeDataDoc, setKeyJ, List.find?_cons, hab,
      Ne.symm hab]

/-- Witness for the amended C9 at concrete keys. -/
theorem C9_update_merge_semantics_witness :
    update_size_data [("general", .obj [("employees", .str "x"), ("revenue", .str "y")])]
        [("general", .obj [("revenue", .str "z")])] =
      some [("general", .obj [("employees", .str "x"), ("revenue", .str "z")])] :=
  C9_update_merge_semantics.2.2.2.2.2 "general" "employees" "revenue" "x" "y" "z"
    (by decide)

/-! ## Majority-vote analysis for the size category (C5) -/

theorem firstOccList_concat (cats : List String) (c : String) :
    firstOccList (cats ++ [c]) =
      if c ∈ firstOccList cats then firstOccList cats
      else firstOccList cats ++ [c] := by
  unfold firstOccList
  rw [List.foldl_append]
  rfl

theorem mem_firstOccList {a : String} (cats : List String) :
    a ∈ firstOccList cats ↔ a ∈ cats := by
  induction cats using List.reverseRecOn with
  | nil => simp [firstOccList]
  | append_singleton l c ih =>
    rw [firstOccList_concat]
    by_cases hc : c ∈ firstOccList l
    · rw [if_pos hc]
      simp only [List.mem_append, List.mem_singleton]
      constructor
      · intro h
        exact Or.inl (ih.mp h)
      · rintro (h | rfl)
        · exact ih.mpr h
        · exact hc
    · rw [if_neg hc]
      simp [ih]

theorem sizeCounts_concat (cats : List String) (c : String) :
    sizeCounts (cats ++ [c]) = bumpCount (sizeCounts cats) c := by
  unfold sizeCounts
  rw [List.foldl_append]
  rfl

/-- The counting dict built by `analyze_business_size` holds exactly
the distinct categories in first-occurrence order, each with its total
count. -/
theorem sizeCounts_eq (cats : List String) :
    sizeCounts cats = (firstOccList cats).map fun k => (k, cats.count k) := by
  induction cats using List.reverseRecOn with
  | nil => rfl
  | append_singleton l c ih =>
    rw [sizeCounts_concat, ih, firstOccList_concat]
    by_cases hc : c ∈ firstOccList l
    · rw [if_pos hc]
      unfold bumpCount
      have hany : (((firstOccList l).map fun k => (k, l.count k)).any
          fun p => p.1 = c) = true := by
        rw [List.any_eq_true]
        exact ⟨(c, l.count c), List.mem_map_of_mem _ hc, by simp⟩
      rw [if_pos hany, List.map_map]
      apply List.map_congr_left
      intro k hk
      by_cases hkc : k = c
      · subst hkc
        simp [List.count_append]
      · simp [Function.comp, hkc, List.count_append, List.count_singleton']
    · rw [if_neg hc]
      unfold bumpCount
      have hany : (((firstOccList l).map fun k => (k, l.count k)).any
          fun p => p.1 = c) = false := by
        rw [List.any_eq_false]
        intro p hp
        rcases List.mem_map.mp hp with ⟨k, hk, rfl⟩
        simp only [decide_eq_true_eq]
        exact fun h => hc (h ▸ hk)
      rw [if_neg (by rw [hany]; exact Bool.false_ne_true), List.map_append]
      congr 1
      · apply List.map_congr_left
        intro k hk
        have hkc : k ≠ c := fun h => hc (h ▸ hk)
        simp [List.count_append, List.count_singleton', hkc]
      · have hcl : c ∉ l := fun h => hc ((mem_firstOccList l).mpr h)
        simp [List.count_append, List.count_eq_zero.mpr hcl]

/-- The keys of the counting dict are ordered by first occurrence. -/
theorem firstOccList_pairwise (cats : List String) :
    (firstOccList cats).Pairwise fun a b => cats.indexOf a < cats.indexOf b := by
  induction cats using List.reverseRecOn with
  | nil => simp [firstOccList]
  | append_singleton l c ih =>
    rw [firstOccList_concat]
    by_cases hc : c ∈ firstOccList l
    · rw [if_pos hc]
      refine List.Pairwise.imp_of_mem ?_ ih
      intro a b ha hb hab
      rw [List.indexOf_append_of_mem ((mem_firstOccList l).mp ha),
        List.indexOf_append_of_mem ((mem_firstOccList l).mp hb)]
      exact hab
    · rw [if_neg hc]
      rw [List.pairwise_append]
      refine ⟨?_, by simp, ?_⟩
      · refine List.Pairwise.imp_of_mem ?_ ih
        intro a b ha hb hab
        rw [List.indexOf_append_of_mem ((mem_firstOccList l).mp ha),
          List.indexOf_append_of_mem ((mem_firstOccList l).mp hb)]
        exact hab
      · intro a ha b hb
        have hal : a ∈ l := (mem_firstOccList l).mp ha
        have hcl : c ∉ l := fun h => hc ((mem_firstOccList l).mpr h)
        simp only [List.mem_singleton] at hb
        subst hb
        rw [List.indexOf_append_of_mem hal, List.indexOf_append_of_not_mem hcl]
        have h1 : l.indexOf a < l.length := List.indexOf_lt_length.mpr hal
        have h2 : [b].indexOf b = 0 := List.indexOf_cons_self b []
        omega

/-- The selected size category is a majority winner: it occurs in the
evaluated-category list, no category occurs more often, and any
category with the same count first occurred no earlier. -/
theorem finalSize_majority (cats : List String) (hne : cats ≠ []) :
    ((maxBySnd (sizeCounts cats)).getD ("", 0)).1 ∈ cats ∧
    (∀ l ∈ cats, cats.count l ≤
      cats.count ((maxBySnd (sizeCounts cats)).getD ("", 0)).1) ∧
    (∀ l ∈ cats, cats.count l =
        cats.count ((maxBySnd (sizeCounts cats)).getD ("", 0)).1 →
      cats.indexOf ((maxBySnd (sizeCounts cats)).getD ("", 0)).1 ≤ cats.indexOf l) := by
  have hm_ne : sizeCounts cats ≠ [] := by
    rw [sizeCounts_eq]
    rcases hcats : cats with _ | ⟨c0, t⟩
    · exact absurd hcats hne
    · intro h
      rw [List.map_eq_nil_iff] at h
      have : c0 ∈ firstOccList (c0 :: t) := (mem_firstOccList _).mpr (by simp)
      rw [h] at this
      simp at this
  obtain ⟨r, hmax⟩ := maxBySnd_some_of_ne_nil hm_ne
  have hgetD : (maxBySnd (sizeCounts cats)).getD ("", 0) = r := by rw [hmax]; rfl
  have hrmem := maxBySnd_mem hmax
  rw [sizeCounts_eq] at hrmem
  obtain ⟨k, hkf, hrk⟩ := List.mem_map.mp hrmem
  have hub := maxBySnd_ub hmax
  have hkc : k ∈ cats := (mem_firstOccList cats).mp hkf
  have hr1 : r.1 = k := by rw [← hrk]
  have hr2 : r.2 = cats.count k := by rw [← hrk]
  rw [hgetD, hr1]
  refine ⟨hkc, ?_, ?_⟩
  · intro l hl
    have hlm : (l, cats.count l) ∈ sizeCounts cats := by
      rw [sizeCounts_eq]
      exact List.mem_map_of_mem _ ((mem_firstOccList cats).mpr hl)
    have := hub _ hlm
    rw [hr2] at this
    exact this
  · intro l hl heq
    obtain ⟨ys, zs, hsplit, hlt⟩ := maxBySnd_first hmax
    have hpw : (sizeCounts cats).Pairwise
        fun p q => cats.indexOf p.1 < cats.indexOf q.1 := by
      rw [sizeCounts_eq, List.pairwise_map]
      exact firstOccList_pairwise cats
    have hlm : (l, cats.count l) ∈ sizeCounts cats := by
      rw [sizeCounts_eq]
      exact List.mem_map_of_mem _ ((mem_firstOccList cats).mpr hl)
    rw [hsplit] at hlm hpw
    rcases List.mem_append.mp hlm with hy | hz
    · exfalso
      have := hlt _ hy
      rw [hr2] at this
      simp only at this
      omega
    · rcases List.mem_cons.mp hz with heq2 | hz'
      · have : l = r.1 := by rw [← heq2]
        rw [hr1] at this
        rw [this]
      · rcases List.pairwise_append.mp hpw with ⟨_, hpw2, _⟩
        have := (List.pairwise_cons.mp hpw2).1 _ hz'
        simp only [hr1] at this
        exact le_of_lt this

/-- Extracting the list non-emptiness branch of
`finalSizeAndConfidence`. -/
theorem finalSizeAndConfidence_fst (cats : List String)
    (cs : List (String × MetricRecord)) (hne : cats ≠ []) :
    (finalSizeAndConfidence cats cs).1 =
      ((maxBySnd (sizeCounts cats)).getD ("", 0)).1 := by
  unfold finalSizeAndConfidence
  rw [if_neg (by simp [hne])]

/-- C5: for every call of `analyze_business_size` that returns a result
and evaluated at least one metric, the final size category is the
bucket label assigned to the greatest number of metrics — an unweighted
count over the evaluated categories (employees, then revenue, then
additional metrics in mapping order), with ties resolved in favour of
the earliest-evaluated category. -/
theorem C5_majority_vote (industry : String)
    (employees_count annual_revenue : Option ℚ)
    (additional_metrics : List (String × ℚ)) (rec : SizeAnalysis)
    (h : analyze_business_size industry employees_count annual_revenue
      additional_metrics = some rec)
    (hne : (evalMetrics (thresholdsFor industry) employees_count annual_revenue
      additional_metrics).1 ≠ []) :
    rec.size_category ∈ (evalMetrics (thresholdsFor industry) employees_count
      annual_revenue additional_metrics).1 ∧
    (∀ l ∈ (evalMetrics (thresholdsFor industry) employees_count annual_revenue
        additional_metrics).1,
      (evalMetrics (thresholdsFor industry) employees_count annual_revenue
        additional_metrics).1.count l ≤
      (evalMetrics (thresholdsFor industry) employees_count annual_revenue
        additional_metrics).1.count rec.size_category) ∧
    (∀ l ∈ (evalMetrics (thresholdsFor industry) employees_count annual_revenue
        additional_metrics).1,
      (evalMetrics (thresholdsFor industry) employees_count annual_revenue
        additional_metrics).1.count l =
      (evalMetrics (thresholdsFor industry) employees_count annual_revenue
        additional_metrics).1.count rec.size_category →
      (evalMetrics (thresholdsFor industry) employees_count annual_revenue
        additional_metrics).1.indexOf rec.size_category ≤
      (evalMetrics (thresholdsFor industry) employees_count annual_revenue
        additional_metrics).1.indexOf l) := by
  have hsz := (analyze_some_projections h).1
  rw [finalSizeAndConfidence_fst _ _ hne] at hsz
  rw [hsz]
  exact finalSize_majority _ hne

set_option maxRecDepth 200000 in
/-- Witness for C5 at the spec scenario (all three metrics agree on
"medium"). -/
theorem C5_majority_vote_witness :
    ((analyze_business_size "retail" (some 75) (some 8000000)
        [("locations", 5)]).getD
        { size_category := "", confidence := 0, description := "",
          challenges := [], opportunities := [], metrics_analysis := [] }).size_category ∈
      (evalMetrics (thresholdsFor "retail") (some 75) (some 8000000)
        [("locations", 5)]).1 :=
  (C5_majority_vote "retail" (some 75) (some 8000000) [("locations", 5)] _
      (by with_unfolding_all rfl)
      (by
        have h : (evalMetrics (thresholdsFor "retail") (some 75) (some 8000000)
            [("locations", 5)]).1 = ["medium", "medium", "medium"] := by
          with_unfolding_all rfl
        rw [h]
        simp)).1

end AIAgent
